import Mathlib

/-!
# Verification of the bwq-lint lexer and performance-validation rules

Shallow embedding of `src/lexer.rs` (the `Lexer` for Brandwatch boolean
queries) and `src/validation/rules/performance_rules.rs` (the three
performance rules), with theorems settling the frozen claims about them.

Conventions of the embedding:
* Rust `Vec<char>` input and `String` values are modelled as `List Char`.
* The lexer's `&mut self` state (`position`, `line`, `column`) is the
  explicit `LexState`; the immutable `input` is passed separately.
* Each `while` loop of the source is a structurally recursive function on a
  `fuel : Nat` argument instantiated at its call site with
  `input.length - position`, the exact number of characters that can still
  be consumed.  With that fuel the `fuel = 0` case coincides with the
  loop's own exit test (the scan is at the end of the input), so the
  embedding computes the same result the Rust loop does; the progress and
  fuel-congruence theorems below make this precise.
* Machine integers: `u32`/`i64` parsing is modelled on `Nat`/`Int` with the
  explicit range checks Rust's `str::parse` performs.
-/

/-- `Char.ofNat 39`, the ASCII apostrophe, used when building the source's
diagnostic messages. -/
def apos : Char := Char.ofNat 39

/-! ## Position and Span

Modelled from the spec: `error.rs` (the `Position`/`Span` primitives) is not
part of the excerpt.  §3 of the spec fixes them as `(line, column,
absolute_offset)` with 1-based line/column and 0-based offset, and
`Span::single p` the zero-width span at `p`. -/

/-- Source position: 1-based `line`/`column`, 0-based `offset`. -/
structure Position where
  line : Nat
  column : Nat
  offset : Nat
deriving DecidableEq, Repr

/-- Half-open source range `[start, stop)`; the Rust field named `end` is
called `stop` here because `end` is a Lean keyword. -/
structure Span where
  start : Position
  stop : Position
deriving DecidableEq, Repr

/-- `Span::single(p)`: the zero-width span at `p`. -/
def Span.single (p : Position) : Span := ⟨p, p⟩

/-! ## Tokens (lexer.rs, lines 4–93) -/

/-- `TokenType` from lexer.rs lines 4–41. -/
inductive TokenType where
  | Word (w : List Char)
  | QuotedString (s : List Char)
  | Number (n : List Char)
  | And
  | Or
  | Not
  | LeftParen
  | RightParen
  | LeftBracket
  | RightBracket
  | LeftBrace
  | RightBrace
  | Tilde
  | Colon
  | Question
  | Asterisk
  | To
  | Near (distance : Nat)
  | NearForward (distance : Nat)
  | CommentStart
  | CommentEnd
  | CommentText (t : List Char)
  | Field (name : List Char)
  | Hashtag (h : List Char)
  | Mention (m : List Char)
  | Whitespace
  | Eof
deriving DecidableEq, Repr

/-- `Token` from lexer.rs lines 78–93. -/
structure Token where
  token_type : TokenType
  span : Span
  raw : List Char
deriving DecidableEq, Repr

/-! ## Diagnostics

Modelled from the spec: the `LintError`/`LintWarning` enums live in the
excluded `error.rs`; the variants below are exactly the ones the excerpted
code constructs (`LexerError` in lexer.rs; `InvalidWildcardPlacement`,
`ValidationError`, `RangeValidationError`, `PerformanceWarning` in
performance_rules.rs), with the payloads visible at those construction
sites. -/

inductive LintError where
  | LexerError (position : Position) (message : List Char)
  | InvalidWildcardPlacement (span : Span)
  | ValidationError (span : Span) (message : List Char)
  | RangeValidationError (span : Span) (message : List Char)
deriving DecidableEq, Repr

inductive LintWarning where
  | PerformanceWarning (span : Span) (message : List Char)
deriving DecidableEq, Repr

/-- Message of the unterminated-quote lexer error (lexer.rs line 289). -/
def unterminated_msg : List Char := "Unterminated quoted string".toList

/-- Message of the unexpected-character lexer error (lexer.rs line 256):
`format!("Unexpected character '{}'", ch)`. -/
def unexpected_char_msg (c : Char) : List Char :=
  "Unexpected character ".toList ++ [apos, c, apos]

/-! ## Lexer state and primitive operations (lexer.rs lines 95–111, 468–500) -/

/-- The mutable fields of `struct Lexer` (the `input` vector is fixed per
run and passed separately). -/
structure LexState where
  position : Nat
  line : Nat
  column : Nat
deriving DecidableEq, Repr

/-- `Lexer::is_at_end` (lexer.rs lines 482–484). -/
def is_at_end (input : List Char) (s : LexState) : Bool :=
  input.length ≤ s.position

/-- `Lexer::current_char` (lexer.rs lines 468–474): the character at the
cursor, `'\0'` at the end of input. -/
def current_char (input : List Char) (s : LexState) : Char :=
  input.getD s.position (Char.ofNat 0)

/-- `Lexer::advance` (lexer.rs lines 476–480). -/
def advance (input : List Char) (s : LexState) : LexState :=
  if s.position < input.length then { s with position := s.position + 1 } else s

/-- The ubiquitous `self.column += 1`. -/
def bump_col (s : LexState) : LexState := { s with column := s.column + 1 }

/-- `Lexer::current_position` (lexer.rs lines 486–488). -/
def current_position (s : LexState) : Position := ⟨s.line, s.column, s.position⟩

/-- `Lexer::peek_ahead` (lexer.rs lines 490–500): the next `n` characters
after the cursor, fewer if the input ends first. -/
def peek_ahead (input : List Char) (s : LexState) (n : Nat) : List Char :=
  (List.range n).filterMap (fun i => input[s.position + i + 1]?)

/-! ## Character classes

Rust's `char::is_alphabetic`/`char::is_alphanumeric` are the full Unicode
`Alphabetic` derived property, a large table.  The embedding uses the ASCII
core of those classes (`Char.isAlpha`/`Char.isAlphanum`).  No claim below
depends on the exact extent of the class: every claim-relevant distinction
made by the source (operator keywords, `NEAR/` digits, whitespace,
structural characters, `#`, `@`, `-`, digits) involves only ASCII, and the
theorems about branch structure hold for any choice of the class. -/

def rust_is_alphabetic (c : Char) : Bool := c.isAlpha

def rust_is_alphanumeric (c : Char) : Bool := c.isAlphanum

/-- The loop character class of `read_word_or_operator` (lexer.rs lines
309–317): alphanumeric or one of `_ . - / * ?`. -/
def is_word_char (c : Char) : Bool :=
  rust_is_alphanumeric c || c == '_' || c == '.' || c == '-' || c == '/' ||
    c == '*' || c == '?'

/-- The loop character class of `read_hashtag`/`read_mention` (lexer.rs
lines 391–396 and 417–422): alphanumeric or one of `_ * ?`. -/
def is_tag_char (c : Char) : Bool :=
  rust_is_alphanumeric c || c == '_' || c == '*' || c == '?'

/-- The loop character class of `read_number` (lexer.rs lines 368–370):
ASCII digits and `.`. -/
def is_number_char (c : Char) : Bool := c.isDigit || c == '.'

/-! ## Numeric parsing

`str::parse::<u32>` / `str::parse::<i64>`: an optional single `+`/`-` sign
(only `+` for `u32`), then one or more ASCII digits, rejecting overflow. -/

/-- Value of a run of ASCII digits. -/
def digits_to_nat (ds : List Char) : Nat :=
  ds.foldl (fun a c => a * 10 + (c.toNat - '0'.toNat)) 0

/-- Rust `str::parse::<u32>`: an optional leading `+`, then one or more
ASCII digits whose value fits in 32 bits. -/
def parse_u32 (s : List Char) : Option Nat :=
  let body := if s.head? = some '+' then s.drop 1 else s
  if body = [] then none
  else if body.all Char.isDigit then
    if digits_to_nat body < 2 ^ 32 then some (digits_to_nat body) else none
  else none

/-- Rust `str::parse::<i64>`: an optional leading `+` or `-` sign, then
one or more ASCII digits whose signed value fits in 64 bits. -/
def parse_i64 (s : List Char) : Option Int :=
  let body := if s.head? = some '+' ∨ s.head? = some '-' then s.drop 1 else s
  if body = [] then none
  else if body.all Char.isDigit then
    if s.head? = some '-' then
      if digits_to_nat body ≤ 2 ^ 63 then some (-(digits_to_nat body : Int)) else none
    else
      if digits_to_nat body ≤ 2 ^ 63 - 1 then some (digits_to_nat body) else none
  else none

/-! ## The lexer's scanning functions (lexer.rs lines 113–466) -/

/-- The maximal-munch loop shared, up to its character class, by
`read_word_or_operator` (lines 309–321), `read_number` (lines 368–374),
`read_hashtag` (lines 391–400) and `read_mention` (lines 417–426):
`while !is_at_end && p(current_char) { value.push(current_char); advance();
column += 1 }`.  `fuel` is instantiated with the remaining input length at
every call site. -/
def munch_go (input : List Char) (p : Char → Bool) :
    Nat → LexState → List Char → List Char × LexState
  | 0, s, value => (value, s)
  | fuel + 1, s, value =>
    if is_at_end input s = false ∧ p (current_char input s) = true then
      munch_go input p fuel (bump_col (advance input s))
        (value ++ [current_char input s])
    else (value, s)

/-- The scanning loop of `read_quoted_string` (lexer.rs lines 271–284):
`while !is_at_end && current_char != '"'`, pushing each character onto both
`value` and `raw` and handling `\n` line/column bookkeeping. -/
def quoted_go (input : List Char) :
    Nat → LexState → List Char → List Char → List Char × List Char × LexState
  | 0, s, value, raw => (value, raw, s)
  | fuel + 1, s, value, raw =>
    if is_at_end input s = false ∧ current_char input s ≠ '"' then
      let ch := current_char input s
      let s1 := if ch = '\n' then { s with line := s.line + 1, column := 1 }
        else bump_col s
      quoted_go input fuel (advance input s1) (value ++ [ch]) (raw ++ [ch])
    else (value, raw, s)

/-- `Lexer::read_quoted_string` (lexer.rs lines 262–303). -/
def read_quoted_string (input : List Char) (s : LexState) :
    Except LintError (Option Token) × LexState :=
  let start_pos := current_position s
  let raw0 := [current_char input s]
  let s0 := bump_col (advance input s)
  match quoted_go input (input.length - s0.position) s0 [] raw0 with
  | (value, raw1, s1) =>
    if is_at_end input s1 then
      (.error (.LexerError start_pos unterminated_msg), s1)
    else
      let raw2 := raw1 ++ [current_char input s1]
      let s2 := bump_col (advance input s1)
      (.ok (some ⟨.QuotedString value, ⟨start_pos, current_position s2⟩, raw2⟩), s2)

/-- The `token_type` reclassification match of `read_word_or_operator`
(lexer.rs lines 326–353).  `value.strip_prefix("NEAR/")` is the pattern on
the first five characters; the byte slice `&stripped[..len-1]` is
`dropLast`, faithful because the guard `value.ends_with('f')` makes the
last character the one-byte `'f'`.  The `value.len()` byte counts are
modelled as character counts, which agree whenever the comparison can
influence the result (a `NEAR/`-prefixed value whose length is at the
threshold consists of one-byte characters). -/
def classify_word (value : List Char) : TokenType :=
  if value = "AND".toList then .And
  else if value = "OR".toList then .Or
  else if value = "NOT".toList then .Not
  else if value = "TO".toList then .To
  else
    match value with
    | 'N' :: 'E' :: 'A' :: 'R' :: '/' :: stripped =>
      if value.getLast? = some 'f' ∧ 6 < value.length then
        match parse_u32 stripped.dropLast with
        | some distance => .NearForward distance
        | none => .Word value
      else if 5 < value.length then
        match parse_u32 stripped with
        | some distance => .Near distance
        | none => .Word value
      else .Word value
    | _ => .Word value

/-- `Lexer::read_word_or_operator` (lexer.rs lines 305–356). -/
def read_word_or_operator (input : List Char) (s : LexState) :
    Except LintError (Option Token) × LexState :=
  let start_pos := current_position s
  match munch_go input is_word_char (input.length - s.position) s [] with
  | (value, s1) =>
    (.ok (some ⟨classify_word value, ⟨start_pos, current_position s1⟩, value⟩), s1)

/-- `Lexer::read_number` (lexer.rs lines 358–382). -/
def read_number (input : List Char) (s : LexState) :
    Except LintError (Option Token) × LexState :=
  let start_pos := current_position s
  let (value0, s0) :=
    if current_char input s = '-' then
      ([current_char input s], bump_col (advance input s))
    else ([], s)
  match munch_go input is_number_char (input.length - s0.position) s0 value0 with
  | (value, s1) =>
    (.ok (some ⟨.Number value, ⟨start_pos, current_position s1⟩, value⟩), s1)

/-- `Lexer::read_hashtag` (lexer.rs lines 384–408); the raw text is
`format!("#{}", value)`. -/
def read_hashtag (input : List Char) (s : LexState) :
    Except LintError (Option Token) × LexState :=
  let start_pos := current_position s
  let s0 := bump_col (advance input s)
  match munch_go input is_tag_char (input.length - s0.position) s0 [] with
  | (value, s1) =>
    (.ok (some ⟨.Hashtag value, ⟨start_pos, current_position s1⟩, '#' :: value⟩), s1)

/-- `Lexer::read_mention` (lexer.rs lines 410–434); the raw text is
`format!("@{}", value)`. -/
def read_mention (input : List Char) (s : LexState) :
    Except LintError (Option Token) × LexState :=
  let start_pos := current_position s
  let s0 := bump_col (advance input s)
  match munch_go input is_tag_char (input.length - s0.position) s0 [] with
  | (value, s1) =>
    (.ok (some ⟨.Mention value, ⟨start_pos, current_position s1⟩, '@' :: value⟩), s1)

/-- `Lexer::read_comment_start` (lexer.rs lines 436–450): three `advance`
calls then `column += 3`. -/
def read_comment_start (input : List Char) (s : LexState) :
    Except LintError (Option Token) × LexState :=
  let start_pos := current_position s
  let s1 := { advance input (advance input (advance input s)) with
    column := s.column + 3 }
  (.ok (some ⟨.CommentStart, ⟨start_pos, current_position s1⟩, ['<', '<', '<']⟩), s1)

/-- `Lexer::read_comment_end` (lexer.rs lines 452–466). -/
def read_comment_end (input : List Char) (s : LexState) :
    Except LintError (Option Token) × LexState :=
  let start_pos := current_position s
  let s1 := { advance input (advance input (advance input s)) with
    column := s.column + 3 }
  (.ok (some ⟨.CommentEnd, ⟨start_pos, current_position s1⟩, ['>', '>', '>']⟩), s1)

/-- `Lexer::next_token` (lexer.rs lines 137–260).  The Rust `match ch`
arms appear here as a cascade of tests in the source's arm order; the
guarded `'<'`/`'>'` arms fall through to the later arms when their
look-ahead guard fails, exactly as a Rust `match` does. -/
def next_token (input : List Char) (s : LexState) :
    Except LintError (Option Token) × LexState :=
  if is_at_end input s then (.ok none, s)
  else
    let start_pos := current_position s
    let ch := current_char input s
    if ch = ' ' ∨ ch = '\t' ∨ ch = '\r' ∨ ch = '\n' then
      let s1 := advance input s
      let s2 := if ch = '\n' then { s1 with line := s1.line + 1, column := 1 }
        else bump_col s1
      (.ok (some ⟨.Whitespace, ⟨start_pos, current_position s2⟩, [ch]⟩), s2)
    else if ch = '"' then read_quoted_string input s
    else if ch = '(' then
      let s1 := bump_col (advance input s)
      (.ok (some ⟨.LeftParen, ⟨start_pos, current_position s1⟩, ['(']⟩), s1)
    else if ch = ')' then
      let s1 := bump_col (advance input s)
      (.ok (some ⟨.RightParen, ⟨start_pos, current_position s1⟩, [')']⟩), s1)
    else if ch = '[' then
      let s1 := bump_col (advance input s)
      (.ok (some ⟨.LeftBracket, ⟨start_pos, current_position s1⟩, ['[']⟩), s1)
    else if ch = ']' then
      let s1 := bump_col (advance input s)
      (.ok (some ⟨.RightBracket, ⟨start_pos, current_position s1⟩, [']']⟩), s1)
    else if ch = '{' then
      let s1 := bump_col (advance input s)
      (.ok (some ⟨.LeftBrace, ⟨start_pos, current_position s1⟩, ['\x7b']⟩), s1)
    else if ch = '}' then
      let s1 := bump_col (advance input s)
      (.ok (some ⟨.RightBrace, ⟨start_pos, current_position s1⟩, ['\x7d']⟩), s1)
    else if ch = '~' then
      let s1 := bump_col (advance input s)
      (.ok (some ⟨.Tilde, ⟨start_pos, current_position s1⟩, ['~']⟩), s1)
    else if ch = ':' then
      let s1 := bump_col (advance input s)
      (.ok (some ⟨.Colon, ⟨start_pos, current_position s1⟩, [':']⟩), s1)
    else if ch = '<' ∧ peek_ahead input s 2 = ['<', '<'] then
      read_comment_start input s
    else if ch = '>' ∧ peek_ahead input s 2 = ['>', '>'] then
      read_comment_end input s
    else if ch = '#' then read_hashtag input s
    else if ch = '@' then read_mention input s
    else if ch.isDigit ∨ ch = '-' then read_number input s
    else if rust_is_alphabetic ch ∨ ch = '_' ∨ ch = '*' ∨ ch = '?' then
      read_word_or_operator input s
    else
      let s1 := bump_col (advance input s)
      (.error (.LexerError start_pos (unexpected_char_msg ch)), s1)

/-- The `while !is_at_end` loop of `Lexer::tokenize` (lexer.rs lines
116–125), accumulating the non-`Whitespace` tokens; `fuel` is instantiated
with the input length by `tokenize`. -/
def tokenize_go (input : List Char) :
    Nat → LexState → List Token → Except LintError (List Token) × LexState
  | 0, s, tokens => (.ok tokens, s)
  | fuel + 1, s, tokens =>
    if is_at_end input s then (.ok tokens, s)
    else
      match next_token input s with
      | (.error e, s') => (.error e, s')
      | (.ok none, s') => (.ok tokens, s')
      | (.ok (some t), s') =>
        tokenize_go input fuel s'
          (tokens ++ match t.token_type with
            | .Whitespace => []
            | _ => [t])

/-- `Lexer::tokenize` (lexer.rs lines 113–135) started from
`Lexer::new`'s state (line 104–111): run the scan loop, then append the
zero-width `Eof` token at the final cursor. -/
def tokenize (input : List Char) : Except LintError (List Token) :=
  match tokenize_go input input.length ⟨0, 1, 1⟩ [] with
  | (.error e, _) => .error e
  | (.ok tokens, s) =>
    .ok (tokens ++ [⟨.Eof, Span.single (current_position s), []⟩])

/-- The same scan as `tokenize_go`, but keeping every token including
`Whitespace` and not appending `Eof`: the full raw-token sequence used to
state the round-trip reconstruction property. -/
def lex_all_go (input : List Char) : Nat → LexState → Except LintError (List Token)
  | 0, _ => .ok []
  | fuel + 1, s =>
    if is_at_end input s then .ok []
    else
      match next_token input s with
      | (.error e, _) => .error e
      | (.ok none, _) => .ok []
      | (.ok (some t), s') => (lex_all_go input fuel s').map (t :: ·)

/-- All tokens of the scan, whitespace included. -/
def lex_all (input : List Char) : Except LintError (List Token) :=
  lex_all_go input input.length ⟨0, 1, 1⟩

/-- The substring of the input addressed by offsets `[a, b)`. -/
def extract (input : List Char) (a b : Nat) : List Char :=
  (input.drop a).take (b - a)

/-- The fall-through condition of `next_token` (lexer.rs lines 251–258):
the character at offset `i` matches none of the lexical rules, the failed
`<`/`>` look-ahead guards included, so the scan reports it as an unexpected
character. -/
def unrecognized_at (input : List Char) (i : Nat) : Prop :=
  let c := input.getD i (Char.ofNat 0)
  ¬(c = ' ' ∨ c = '\t' ∨ c = '\r' ∨ c = '\n') ∧ ¬c = '"' ∧
    ¬c = '(' ∧ ¬c = ')' ∧ ¬c = '[' ∧ ¬c = ']' ∧ ¬c = '\x7b' ∧ ¬c = '\x7d' ∧
    ¬c = '~' ∧ ¬c = ':' ∧
    ¬(c = '<' ∧ peek_ahead input ⟨i, 1, 1⟩ 2 = ['<', '<']) ∧
    ¬(c = '>' ∧ peek_ahead input ⟨i, 1, 1⟩ 2 = ['>', '>']) ∧
    ¬c = '#' ∧ ¬c = '@' ∧ ¬(c.isDigit ∨ c = '-') ∧
    ¬(rust_is_alphabetic c ∨ c = '_' ∨ c = '*' ∨ c = '?')

/-! ## AST

Modelled from the spec: `ast.rs` is not part of the excerpt.  §3 of the
spec fixes `Term` as the leaf tagged union with a raw textual `value`,
`Expression` as the owned tree with the listed composites, and `FieldType`
as a closed enumeration of recognized fields including `AuthorFollowers`.
The shapes below carry exactly the payloads performance_rules.rs consumes
(`Term::… { value }`, `Expression::Term { term, span }`,
`Expression::Range { field, start, end, span }`). -/

inductive FieldType where
  | AuthorFollowers
  | Title
  | Site
  | Language
deriving DecidableEq, Repr

inductive Term where
  | Word (value : List Char)
  | Phrase (value : List Char)
  | Wildcard (value : List Char)
  | Replacement (value : List Char)
  | Hashtag (value : List Char)
  | Mention (value : List Char)
  | CaseSensitive (value : List Char)
  | Number (value : List Char)
deriving DecidableEq, Repr

inductive Expression where
  | Term (term : Term) (span : Span)
  | And (left right : Expression) (span : Span)
  | Or (left right : Expression) (span : Span)
  | Not (operand : Expression) (span : Span)
  | Group (inner : Expression) (span : Span)
  | Field (field : FieldType) (operand : Expression) (span : Span)
  | Range (field : Option FieldType) (start stop : List Char) (span : Span)
  | Proximity (terms : List Expression) (distance : Nat) (forward : Bool) (span : Span)

/-! ## Validation plumbing

Modelled from the spec: `validation/mod.rs` is not part of the excerpt.
§3 fixes `ValidationResult` as an accumulator of errors and warnings, §4.3
fixes `ValidationContext` as read-only query-level information the three
rules here never inspect (each binds it as `_ctx`). -/

structure ValidationContext where
deriving DecidableEq, Repr

structure ValidationResult where
  errors : List LintError
  warnings : List LintWarning
deriving DecidableEq, Repr

/-- `ValidationResult::new()`. -/
def ValidationResult.new : ValidationResult := ⟨[], []⟩

/-- `ValidationResult::with_error(e)`. -/
def ValidationResult.with_error (e : LintError) : ValidationResult := ⟨[e], []⟩

/-- `ValidationResult::with_warning(w)`. -/
def ValidationResult.with_warning (w : LintWarning) : ValidationResult := ⟨[], [w]⟩

/-! ## Rust string helpers used by the rules -/

/-- Rust `str::split(sep).collect::<Vec<_>>()` on characters: the segments
between occurrences of `sep`, always at least one (empty) segment. -/
def split_on (sep : Char) : List Char → List (List Char)
  | [] => [[]]
  | c :: rest =>
    match split_on sep rest with
    | [] => [[]]
    | g :: gs => if c = sep then [] :: g :: gs else (c :: g) :: gs

/-- Rust `str::len()`: the UTF-8 byte length. -/
def utf8_len (l : List Char) : Nat := (l.map Char.utf8Size).sum

/-- The Unicode `White_Space` code points, the class Rust's `char::is_whitespace`
(and hence `str::trim`) uses. -/
def rust_is_whitespace (c : Char) : Bool :=
  let n := c.toNat
  n = 0x9 ∨ n = 0xA ∨ n = 0xB ∨ n = 0xC ∨ n = 0xD ∨ n = 0x20 ∨
    n = 0x85 ∨ n = 0xA0 ∨ n = 0x1680 ∨ (0x2000 ≤ n ∧ n ≤ 0x200A) ∨
    n = 0x2028 ∨ n = 0x2029 ∨ n = 0x202F ∨ n = 0x205F ∨ n = 0x3000

/-- Rust `value.trim().is_empty()`: trimming whitespace from both ends
leaves nothing exactly when every character is whitespace. -/
def trim_is_empty (value : List Char) : Bool := value.all rust_is_whitespace

/-! ## Rule diagnostic messages (performance_rules.rs) -/

def too_many_terms_msg : List Char :=
  "This wildcard matches too many unique terms. Please make it more specific.".toList

def replacement_warning_msg : List Char :=
  "Multiple replacement characters may impact performance".toList

def word_empty_msg : List Char := "Word cannot be empty".toList

def phrase_empty_msg : List Char := "Quoted phrase cannot be empty".toList

def hashtag_empty_msg : List Char := "Hashtag cannot be empty".toList

def mention_empty_msg : List Char := "Mention cannot be empty".toList

/-- `format!`-free rendering of the source's message
`Wildcard usage after '#' is discouraged and may lead to unexpected results`. -/
def hashtag_wildcard_msg : List Char :=
  "Wildcard usage after ".toList ++ [apos, '#', apos] ++
    " is discouraged and may lead to unexpected results".toList

/-- The mention counterpart with `'@'`. -/
def mention_wildcard_msg : List Char :=
  "Wildcard usage after ".toList ++ [apos, '@', apos] ++
    " is discouraged and may lead to unexpected results".toList

def range_negative_msg : List Char := "Follower counts cannot be negative".toList

def range_large_msg : List Char :=
  "Very large follower counts may not match any results".toList

/-! ## WildcardPerformanceRule (performance_rules.rs lines 5–64) -/

namespace WildcardPerformanceRule

/-- `WildcardPerformanceRule::validate` (lines 12–53).  `value.starts_with('*')`
is a test on the first character, `value.ends_with('*')` on the last;
`first_part.len()` is Rust's byte length, `utf8_len` here. -/
def validate (expr : Expression) (_ctx : ValidationContext) : ValidationResult :=
  match expr with
  | .Term term span =>
    match term with
    | .Wildcard value =>
      let errors1 :=
        if value.head? = some '*' then [LintError.InvalidWildcardPlacement span]
        else []
      let parts := split_on '*' value
      let errors2 :=
        match parts.head? with
        | some first_part =>
          if first_part ≠ [] ∧ utf8_len first_part = 1 ∧ value.getLast? = some '*'
          then [LintError.ValidationError span too_many_terms_msg]
          else []
        | none => []
      ⟨errors1 ++ errors2, []⟩
    | .Replacement value =>
      let question_count := (value.filter (fun c => c = '?')).length
      if question_count > 3 then
        ValidationResult.with_warning (.PerformanceWarning span replacement_warning_msg)
      else ValidationResult.new
    | _ => ValidationResult.new
  | _ => ValidationResult.new

/-- `WildcardPerformanceRule::can_validate` (lines 55–63). -/
def can_validate (expr : Expression) : Bool :=
  match expr with
  | .Term term _ =>
    match term with
    | .Wildcard _ => true
    | .Replacement _ => true
    | _ => false
  | _ => false

end WildcardPerformanceRule

/-! ## ShortTermRule (performance_rules.rs lines 66–141) -/

namespace ShortTermRule

/-- `ShortTermRule::validate` (lines 73–136). -/
def validate (expr : Expression) (_ctx : ValidationContext) : ValidationResult :=
  match expr with
  | .Term term span =>
    match term with
    | .Word value =>
      if trim_is_empty value then
        ⟨[LintError.ValidationError span word_empty_msg], []⟩
      else ⟨[], []⟩
    | .Phrase value =>
      if trim_is_empty value then
        ValidationResult.with_error (.ValidationError span phrase_empty_msg)
      else ValidationResult.new
    | .Hashtag value =>
      if trim_is_empty value then
        ValidationResult.with_error (.ValidationError span hashtag_empty_msg)
      else if value.head? = some '*' ∨ value.head? = some '?' then
        ValidationResult.with_warning (.PerformanceWarning span hashtag_wildcard_msg)
      else ValidationResult.new
    | .Mention value =>
      if trim_is_empty value then
        ValidationResult.with_error (.ValidationError span mention_empty_msg)
      else if value.head? = some '*' ∨ value.head? = some '?' then
        ValidationResult.with_warning (.PerformanceWarning span mention_wildcard_msg)
      else ValidationResult.new
    | .CaseSensitive _ => ValidationResult.new
    | _ => ValidationResult.new
  | _ => ValidationResult.new

/-- `ShortTermRule::can_validate` (lines 138–140). -/
def can_validate (expr : Expression) : Bool :=
  match expr with
  | .Term _ _ => true
  | _ => false

end ShortTermRule

/-! ## RangePerformanceRule (performance_rules.rs lines 143–193) -/

namespace RangePerformanceRule

/-- `RangePerformanceRule::validate` (lines 150–182). -/
def validate (expr : Expression) (_ctx : ValidationContext) : ValidationResult :=
  match expr with
  | .Range (some .AuthorFollowers) start stop span =>
    match parse_i64 start, parse_i64 stop with
    | some start_num, some end_num =>
      let errors :=
        if start_num < 0 ∨ end_num < 0 then
          [LintError.RangeValidationError span range_negative_msg]
        else []
      let warnings :=
        if end_num > 1000000000 then
          [LintWarning.PerformanceWarning span range_large_msg]
        else []
      ⟨errors, warnings⟩
    | _, _ => ValidationResult.new
  | _ => ValidationResult.new

/-- `RangePerformanceRule::can_validate` (lines 184–192). -/
def can_validate (expr : Expression) : Bool :=
  match expr with
  | .Range (some .AuthorFollowers) _ _ _ => true
  | _ => false

end RangePerformanceRule

/-! ## Concrete anchors used by witness statements -/

/-- A fixed span for rule-level witnesses. -/
def span0 : Span := ⟨⟨1, 1, 0⟩, ⟨1, 2, 1⟩⟩

/-- The (empty) context handed to rules in witnesses. -/
def ctx0 : ValidationContext := ⟨⟩

/-- A node (a parenthesized group) none of the three rules applies to. -/
def expr0 : Expression := .Group (.Term (.Word ['a']) span0) span0

/-! ## Helper lemmas about the rule definitions -/

/-- The first segment of a Rust `split` is the run of characters before the
first separator. -/
theorem split_on_head (sep : Char) (v : List Char) :
    (split_on sep v).head? = some (v.takeWhile (fun c => c != sep)) := by
  induction v with
  | nil => rfl
  | cons c rest ih =>
    unfold split_on
    cases h : split_on sep rest with
    | nil => rw [h] at ih; simp at ih
    | cons g gs =>
      rw [h] at ih
      simp only [List.head?_cons, Option.some.injEq] at ih
      by_cases hc : c = sep
      · subst hc
        simp [List.takeWhile_cons]
      · simp [hc, List.takeWhile_cons, bne_iff_ne, ih]

/-- A value whose first character is not whitespace does not trim to
empty. -/
theorem trim_is_empty_false_of_head (value : List Char) (c : Char)
    (hh : value.head? = some c) (hw : rust_is_whitespace c = false) :
    trim_is_empty value = false := by
  cases value with
  | nil => simp at hh
  | cons a t =>
    simp only [List.head?_cons, Option.some.injEq] at hh
    subst hh
    simp [trim_is_empty, hw]

/-- The wildcard branch of `WildcardPerformanceRule::validate` in closed
form: the two pushes into `result.errors`, in source order, and no
warnings. -/
theorem wildcard_validate_eq (value : List Char) (span : Span) (ctx : ValidationContext) :
    WildcardPerformanceRule.validate (.Term (.Wildcard value) span) ctx =
      ⟨(if value.head? = some '*' then [LintError.InvalidWildcardPlacement span] else []) ++
        (if value.takeWhile (fun c => c != '*') ≠ [] ∧
            utf8_len (value.takeWhile (fun c => c != '*')) = 1 ∧
            value.getLast? = some '*'
         then [LintError.ValidationError span too_many_terms_msg] else []), []⟩ := by
  simp only [WildcardPerformanceRule.validate, split_on_head]

/-- The replacement branch of `WildcardPerformanceRule::validate` in closed
form. -/
theorem replacement_validate_eq (v2 : List Char) (span : Span) (ctx : ValidationContext) :
    WildcardPerformanceRule.validate (.Term (.Replacement v2) span) ctx =
      (if 3 < (v2.filter (fun c => c = '?')).length then
        ⟨[], [.PerformanceWarning span replacement_warning_msg]⟩
      else ⟨[], []⟩) := by
  simp only [WildcardPerformanceRule.validate, ValidationResult.with_warning,
    ValidationResult.new]

/-- C4: on a `Wildcard` term the rule emits `InvalidWildcardPlacement`
exactly when the value begins with `*`, and the "too many unique terms"
error exactly when the first segment of the value split on `*` (the run
before the first `*`) is non-empty of byte length exactly 1 and the value
ends with `*`; it never emits warnings on wildcards.  On a `Replacement`
term it never emits errors and emits exactly the one performance warning
precisely when the value contains more than 3 `?` occurrences. -/
theorem c4_wildcard_performance_rule (value v2 : List Char) (span : Span)
    (ctx : ValidationContext) :
    (LintError.InvalidWildcardPlacement span ∈
        (WildcardPerformanceRule.validate (.Term (.Wildcard value) span) ctx).errors
      ↔ value.head? = some '*')
  ∧ (LintError.ValidationError span too_many_terms_msg ∈
        (WildcardPerformanceRule.validate (.Term (.Wildcard value) span) ctx).errors
      ↔ value.takeWhile (fun c => c != '*') ≠ [] ∧
          utf8_len (value.takeWhile (fun c => c != '*')) = 1 ∧
          value.getLast? = some '*')
  ∧ (WildcardPerformanceRule.validate (.Term (.Wildcard value) span) ctx).warnings = []
  ∧ (WildcardPerformanceRule.validate (.Term (.Replacement v2) span) ctx).errors = []
  ∧ (3 < (v2.filter (fun c => c = '?')).length →
      (WildcardPerformanceRule.validate (.Term (.Replacement v2) span) ctx).warnings
        = [.PerformanceWarning span replacement_warning_msg])
  ∧ ((v2.filter (fun c => c = '?')).length ≤ 3 →
      (WildcardPerformanceRule.validate (.Term (.Replacement v2) span) ctx).warnings = []) := by
  rw [wildcard_validate_eq, replacement_validate_eq]
  refine ⟨?_, ?_, ?_, ?_, ?_, ?_⟩
  · by_cases h1 : value.head? = some '*' <;> simp [h1]
  · by_cases h2 : value.takeWhile (fun c => c != '*') ≠ [] ∧
        utf8_len (value.takeWhile (fun c => c != '*')) = 1 ∧
        value.getLast? = some '*' <;> simp [h2]
  · simp
  · split <;> simp
  · intro h; simp [h]
  · intro h; simp [Nat.not_lt.mpr h]

/-- C4 witness: `a*` draws the "too many unique terms" error, `apple*`
does not, and four `?` draw exactly one performance warning. -/
theorem c4_witness :
    (LintError.ValidationError span0 too_many_terms_msg ∈
      (WildcardPerformanceRule.validate
        (.Term (.Wildcard ['a', '*']) span0) ctx0).errors)
  ∧ ¬(LintError.ValidationError span0 too_many_terms_msg ∈
      (WildcardPerformanceRule.validate
        (.Term (.Wildcard ['a', 'p', 'p', 'l', 'e', '*']) span0) ctx0).errors)
  ∧ (WildcardPerformanceRule.validate
      (.Term (.Replacement ['?', '?', '?', '?']) span0) ctx0).warnings
        = [.PerformanceWarning span0 replacement_warning_msg] :=
  ⟨((c4_wildcard_performance_rule ['a', '*'] [] span0 ctx0).2.1).mpr (by decide),
   fun hmem => by
      have h := ((c4_wildcard_performance_rule
        ['a', 'p', 'p', 'l', 'e', '*'] [] span0 ctx0).2.1).mp hmem
      exact absurd h.2.1 (by decide),
   (c4_wildcard_performance_rule ['a', '*'] ['?', '?', '?', '?'] span0 ctx0).2.2.2.2.1
     (by decide)⟩

/-- C5: on an `AuthorFollowers` range whose two bound strings both parse as
`i64`, the rule emits the negative-bound error exactly when a bound is
negative and the performance warning exactly when the end bound exceeds
1,000,000,000; if either bound fails to parse the result is empty. -/
theorem c5_range_performance_rule (startS stopS : List Char) (span : Span)
    (ctx : ValidationContext) :
    (∀ s e : Int, parse_i64 startS = some s → parse_i64 stopS = some e →
      (RangePerformanceRule.validate
          (.Range (some .AuthorFollowers) startS stopS span) ctx).errors
        = (if s < 0 ∨ e < 0 then [LintError.RangeValidationError span range_negative_msg]
           else [])
      ∧ (RangePerformanceRule.validate
          (.Range (some .AuthorFollowers) startS stopS span) ctx).warnings
        = (if 1000000000 < e then [LintWarning.PerformanceWarning span range_large_msg]
           else []))
  ∧ ((parse_i64 startS = none ∨ parse_i64 stopS = none) →
      RangePerformanceRule.validate
        (.Range (some .AuthorFollowers) startS stopS span) ctx = ValidationResult.new) := by
  constructor
  · intro s e hs he
    simp [RangePerformanceRule.validate, hs, he]
  · intro h
    cases hs : parse_i64 startS <;> cases he : parse_i64 stopS <;>
      simp_all [RangePerformanceRule.validate]

/-- C5 witness: `[-5 TO 100]` yields the negative-bound error only,
`[0 TO 2000000000]` the large-bound warning only, `[0 TO 100]` neither. -/
theorem c5_witness :
    (RangePerformanceRule.validate
        (.Range (some .AuthorFollowers) ['-', '5'] ['1', '0', '0'] span0) ctx0).errors
      = [.RangeValidationError span0 range_negative_msg]
  ∧ (RangePerformanceRule.validate
        (.Range (some .AuthorFollowers) ['-', '5'] ['1', '0', '0'] span0) ctx0).warnings
      = []
  ∧ (RangePerformanceRule.validate (.Range (some .AuthorFollowers) ['0']
        ['2', '0', '0', '0', '0', '0', '0', '0', '0', '0'] span0) ctx0).errors = []
  ∧ (RangePerformanceRule.validate (.Range (some .AuthorFollowers) ['0']
        ['2', '0', '0', '0', '0', '0', '0', '0', '0', '0'] span0) ctx0).warnings
      = [.PerformanceWarning span0 range_large_msg]
  ∧ (RangePerformanceRule.validate
        (.Range (some .AuthorFollowers) ['0'] ['1', '0', '0'] span0) ctx0).errors = []
  ∧ (RangePerformanceRule.validate
        (.Range (some .AuthorFollowers) ['0'] ['1', '0', '0'] span0) ctx0).warnings = [] := by
  have h1 := (c5_range_performance_rule ['-', '5'] ['1', '0', '0'] span0 ctx0).1
    (-5) 100 (by decide) (by decide)
  have h2 := (c5_range_performance_rule ['0']
    ['2', '0', '0', '0', '0', '0', '0', '0', '0', '0'] span0 ctx0).1
    0 2000000000 (by decide) (by decide)
  have h3 := (c5_range_performance_rule ['0'] ['1', '0', '0'] span0 ctx0).1
    0 100 (by decide) (by decide)
  refine ⟨?_, ?_, ?_, ?_, ?_, ?_⟩
  · rw [h1.1]; decide
  · rw [h1.2]; decide
  · rw [h2.1]; decide
  · rw [h2.2]; decide
  · rw [h3.1]; decide
  · rw [h3.2]; decide

/-- C6: `ShortTermRule::validate` on each `Term` kind — `Word`/`Phrase`
that trim to empty get exactly one error; `Hashtag`/`Mention` that trim to
empty get exactly one error, and when they start with `*` or `?` (hence
are non-empty) exactly one performance warning and no error;
`CaseSensitive` and every other kind yield the empty result. -/
theorem c6_short_term_rule (value : List Char) (span : Span) (ctx : ValidationContext) :
    (trim_is_empty value = true →
      ShortTermRule.validate (.Term (.Word value) span) ctx
        = ⟨[.ValidationError span word_empty_msg], []⟩)
  ∧ (trim_is_empty value = false →
      ShortTermRule.validate (.Term (.Word value) span) ctx = ValidationResult.new)
  ∧ (trim_is_empty value = true →
      ShortTermRule.validate (.Term (.Phrase value) span) ctx
        = ⟨[.ValidationError span phrase_empty_msg], []⟩)
  ∧ (trim_is_empty value = false →
      ShortTermRule.validate (.Term (.Phrase value) span) ctx = ValidationResult.new)
  ∧ (trim_is_empty value = true →
      ShortTermRule.validate (.Term (.Hashtag value) span) ctx
        = ⟨[.ValidationError span hashtag_empty_msg], []⟩)
  ∧ (value.head? = some '*' ∨ value.head? = some '?' →
      ShortTermRule.validate (.Term (.Hashtag value) span) ctx
        = ⟨[], [.PerformanceWarning span hashtag_wildcard_msg]⟩)
  ∧ (trim_is_empty value = false →
      ¬(value.head? = some '*' ∨ value.head? = some '?') →
      ShortTermRule.validate (.Term (.Hashtag value) span) ctx = ValidationResult.new)
  ∧ (trim_is_empty value = true →
      ShortTermRule.validate (.Term (.Mention value) span) ctx
        = ⟨[.ValidationError span mention_empty_msg], []⟩)
  ∧ (value.head? = some '*' ∨ value.head? = some '?' →
      ShortTermRule.validate (.Term (.Mention value) span) ctx
        = ⟨[], [.PerformanceWarning span mention_wildcard_msg]⟩)
  ∧ (trim_is_empty value = false →
      ¬(value.head? = some '*' ∨ value.head? = some '?') →
      ShortTermRule.validate (.Term (.Mention value) span) ctx = ValidationResult.new)
  ∧ ShortTermRule.validate (.Term (.CaseSensitive value) span) ctx = ValidationResult.new
  ∧ ShortTermRule.validate (.Term (.Wildcard value) span) ctx = ValidationResult.new
  ∧ ShortTermRule.validate (.Term (.Replacement value) span) ctx = ValidationResult.new
  ∧ ShortTermRule.validate (.Term (.Number value) span) ctx = ValidationResult.new := by
  have hstar : value.head? = some '*' ∨ value.head? = some '?' →
      trim_is_empty value = false := by
    rintro (h | h)
    · exact trim_is_empty_false_of_head value '*' h (by decide)
    · exact trim_is_empty_false_of_head value '?' h (by decide)
  refine ⟨?_, ?_, ?_, ?_, ?_, ?_, ?_, ?_, ?_, ?_, ?_, ?_, ?_, ?_⟩
  · intro h; simp [ShortTermRule.validate, h]
  · intro h; simp [ShortTermRule.validate, h, ValidationResult.new]
  · intro h; simp [ShortTermRule.validate, h, ValidationResult.with_error]
  · intro h; simp [ShortTermRule.validate, h, ValidationResult.new]
  · intro h; simp [ShortTermRule.validate, h, ValidationResult.with_error]
  · intro h; simp [ShortTermRule.validate, hstar h, h, ValidationResult.with_warning]
  · intro h hq; simp [ShortTermRule.validate, h, hq, ValidationResult.new]
  · intro h; simp [ShortTermRule.validate, h, ValidationResult.with_error]
  · intro h; simp [ShortTermRule.validate, hstar h, h, ValidationResult.with_warning]
  · intro h hq; simp [ShortTermRule.validate, h, hq, ValidationResult.new]
  · rfl
  · rfl
  · rfl
  · rfl

/-- C6 witness: the empty `Phrase` and the empty `Hashtag` each yield
exactly one error, and the `Mention` `@*x` yields one warning and no
error. -/
theorem c6_witness :
    ShortTermRule.validate (.Term (.Phrase []) span0) ctx0
      = ⟨[.ValidationError span0 phrase_empty_msg], []⟩
  ∧ ShortTermRule.validate (.Term (.Hashtag []) span0) ctx0
      = ⟨[.ValidationError span0 hashtag_empty_msg], []⟩
  ∧ ShortTermRule.validate (.Term (.Mention ['*', 'x']) span0) ctx0
      = ⟨[], [.PerformanceWarning span0 mention_wildcard_msg]⟩ :=
  ⟨(c6_short_term_rule [] span0 ctx0).2.2.1 (by decide),
   (c6_short_term_rule [] span0 ctx0).2.2.2.2.1 (by decide),
   (c6_short_term_rule ['*', 'x'] span0 ctx0).2.2.2.2.2.2.2.2.1 (Or.inl (by decide))⟩

/-- C9: for each of the three rules, `can_validate` is a pure predicate on
the node's variant shape, and whenever it returns `false`, `validate`
returns the empty result. -/
theorem c9_can_validate_agrees (expr : Expression) (ctx : ValidationContext) :
    (WildcardPerformanceRule.can_validate expr = false →
      WildcardPerformanceRule.validate expr ctx = ValidationResult.new)
  ∧ (ShortTermRule.can_validate expr = false →
      ShortTermRule.validate expr ctx = ValidationResult.new)
  ∧ (RangePerformanceRule.can_validate expr = false →
      RangePerformanceRule.validate expr ctx = ValidationResult.new) := by
  refine ⟨?_, ?_, ?_⟩
  · intro h
    cases expr with
    | Term t sp => cases t <;> simp_all [WildcardPerformanceRule.can_validate,
        WildcardPerformanceRule.validate, ValidationResult.new]
    | And l r sp => rfl
    | Or l r sp => rfl
    | Not o sp => rfl
    | Group i sp => rfl
    | Field f o sp => rfl
    | Range f a b sp => rfl
    | Proximity ts d fw sp => rfl
  · intro h
    cases expr with
    | Term t sp => simp [ShortTermRule.can_validate] at h
    | And l r sp => rfl
    | Or l r sp => rfl
    | Not o sp => rfl
    | Group i sp => rfl
    | Field f o sp => rfl
    | Range f a b sp => rfl
    | Proximity ts d fw sp => rfl
  · intro h
    cases expr with
    | Term t sp => rfl
    | And l r sp => rfl
    | Or l r sp => rfl
    | Not o sp => rfl
    | Group i sp => rfl
    | Field f o sp => rfl
    | Range f a b sp =>
      cases f with
      | none => rfl
      | some ft =>
        cases ft with
        | AuthorFollowers => simp [RangePerformanceRule.can_validate] at h
        | Title => rfl
        | Site => rfl
        | Language => rfl
    | Proximity ts d fw sp => rfl

/-- C9 witness: on a `Group` node every `can_validate` is `false` and every
`validate` returns the empty result. -/
theorem c9_witness :
    WildcardPerformanceRule.validate expr0 ctx0 = ValidationResult.new
  ∧ ShortTermRule.validate expr0 ctx0 = ValidationResult.new
  ∧ RangePerformanceRule.validate expr0 ctx0 = ValidationResult.new :=
  ⟨(c9_can_validate_agrees expr0 ctx0).1 (by decide),
   (c9_can_validate_agrees expr0 ctx0).2.1 (by decide),
   (c9_can_validate_agrees expr0 ctx0).2.2 (by decide)⟩

/-! ## Lexer lemmas -/

/-- With adequate fuel, the maximal-munch loop appends exactly the
`takeWhile` of the remaining input and advances position and column by its
length. -/
theorem munch_go_spec (input : List Char) (p : Char → Bool) :
    ∀ (fuel : Nat) (s : LexState) (value : List Char),
      input.length - s.position ≤ fuel →
      munch_go input p fuel s value =
        (value ++ (input.drop s.position).takeWhile p,
         ⟨s.position + ((input.drop s.position).takeWhile p).length, s.line,
          s.column + ((input.drop s.position).takeWhile p).length⟩) := by
  intro fuel
  induction fuel with
  | zero =>
    intro s value h
    have hle : input.length ≤ s.position := Nat.le_of_sub_eq_zero (Nat.le_zero.mp h)
    rw [List.drop_eq_nil_of_le hle]
    simp [munch_go]
  | succ fuel ih =>
    intro s value h
    by_cases hend : s.position < input.length
    · have hd : input.drop s.position = input[s.position] :: input.drop (s.position + 1) :=
        List.drop_eq_getElem_cons hend
      have hcur : current_char input s = input[s.position] := by
        simp [current_char, List.getD, List.getElem?_eq_getElem hend]
      by_cases hp : p input[s.position] = true
      · have hcond : is_at_end input s = false ∧ p (current_char input s) = true := by
          constructor
          · simp [is_at_end, Nat.not_le.mpr hend]
          · rw [hcur]; exact hp
        rw [munch_go, if_pos hcond]
        have hadv : bump_col (advance input s) =
            (⟨s.position + 1, s.line, s.column + 1⟩ : LexState) := by
          simp [bump_col, advance, hend]
        rw [hadv, hcur]
        rw [ih ⟨s.position + 1, s.line, s.column + 1⟩ (value ++ [input[s.position]])
          (by simpa using Nat.sub_le_of_le_add (by omega))]
        rw [hd, List.takeWhile_cons, if_pos hp]
        simp [Nat.add_assoc, Nat.add_comm 1]
      · have hcond : ¬(is_at_end input s = false ∧ p (current_char input s) = true) := by
          rintro ⟨-, hc⟩
          rw [hcur] at hc
          exact hp hc
        rw [munch_go, if_neg hcond]
        rw [hd, List.takeWhile_cons, if_neg hp]
        simp
    · have hle : input.length ≤ s.position := Nat.not_lt.mp hend
      rw [List.drop_eq_nil_of_le hle]
      have hcond : ¬(is_at_end input s = false ∧ p (current_char input s) = true) := by
        rintro ⟨hc, -⟩
        simp [is_at_end, hle] at hc
      rw [munch_go, if_neg hcond]
      simp

/-- The character the scan cursor addresses, as a list element. -/
theorem current_char_eq_getElem (input : List Char) (s : LexState)
    (h : s.position < input.length) :
    current_char input s = input[s.position] := by
  simp [current_char, List.getD, List.getElem?_eq_getElem h]

/-- `extract` over adjacent ranges concatenates. -/
theorem extract_append (input : List Char) (a b c : Nat) (hab : a ≤ b) (hbc : b ≤ c) :
    extract input a c = extract input a b ++ extract input b c := by
  unfold extract
  rw [show c - a = (b - a) + (c - b) by omega, List.take_add]
  congr 1
  rw [List.drop_drop, show a + (b - a) = b by omega]

/-- A one-character `extract` is the character at that offset. -/
theorem extract_single (input : List Char) (a : Nat) (h : a < input.length) :
    extract input a (a + 1) = [input[a]] := by
  unfold extract
  rw [show a + 1 - a = 1 by omega, List.drop_eq_getElem_cons h]
  rfl

/-- `extract` of exactly the `takeWhile` run starting at `a` is that run. -/
theorem extract_takeWhile (input : List Char) (p : Char → Bool) (a : Nat) :
    extract input a (a + ((input.drop a).takeWhile p).length)
      = (input.drop a).takeWhile p := by
  unfold extract
  rw [Nat.add_sub_cancel_left]
  exact (List.prefix_iff_eq_take.mp (List.takeWhile_prefix p)).symm

/-- The element right after a `takeWhile` run fails the predicate. -/
theorem getElem?_after_takeWhile (input : List Char) (p : Char → Bool) (a : Nat)
    (h : a + ((input.drop a).takeWhile p).length < input.length) :
    ∃ c, input[a + ((input.drop a).takeWhile p).length]? = some c ∧ p c = false := by
  set t := (input.drop a).takeWhile p with ht
  have hple : t.length ≤ (input.drop a).length := (List.takeWhile_prefix p).length_le
  have hsplit : input.drop a = t ++ (input.drop a).dropWhile p :=
    (List.takeWhile_append_dropWhile (p := p) (l := input.drop a)).symm
  have htlt : t.length < (input.drop a).length := by
    rw [List.length_drop]
    omega
  have hrest : (input.drop a).dropWhile p ≠ [] := by
    intro hnil
    rw [hnil, List.append_nil] at hsplit
    rw [← hsplit] at htlt
    omega
  obtain ⟨c, rest', hr⟩ : ∃ c rest', (input.drop a).dropWhile p = c :: rest' := by
    cases hcase : (input.drop a).dropWhile p with
    | nil => exact absurd hcase hrest
    | cons c rest' => exact ⟨c, rest', rfl⟩
  refine ⟨c, ?_, ?_⟩
  · rw [← List.getElem?_drop, hsplit, hr]
    rw [List.getElem?_append_right (Nat.le_refl t.length)]
    simp
  · have hhead := List.head_dropWhile_not p (input.drop a) hrest
    have hc : ((input.drop a).dropWhile p).head hrest = c := by simp [hr]
    rwa [hc] at hhead

/-- A `takeWhile` run covering the whole remaining input means every
remaining character satisfies the predicate. -/
theorem takeWhile_all_iff (input : List Char) (p : Char → Bool) (a : Nat)
    (ha : a ≤ input.length) :
    (a + ((input.drop a).takeWhile p).length = input.length)
      ↔ ∀ c ∈ input.drop a, p c := by
  have hple : ((input.drop a).takeWhile p).length ≤ (input.drop a).length :=
    (List.takeWhile_prefix p).length_le
  rw [List.length_drop] at hple
  constructor
  · intro h c hc
    have hlen : ((input.drop a).takeWhile p).length = (input.drop a).length := by
      rw [List.length_drop]
      omega
    exact List.takeWhile_eq_self_iff.mp
      ((List.takeWhile_prefix p).eq_of_length hlen) c hc
  · intro h
    rw [List.takeWhile_eq_self_iff.mpr h, List.length_drop]
    omega

/-- With adequate fuel, the quoted-string loop appends exactly the run of
non-quote characters to both accumulators and advances the position by its
length (line/column follow the newline bookkeeping). -/
theorem quoted_go_spec (input : List Char) :
    ∀ (fuel : Nat) (s : LexState) (value raw : List Char),
      input.length - s.position ≤ fuel →
      ∃ l' c',
        quoted_go input fuel s value raw =
          (value ++ (input.drop s.position).takeWhile (fun c => c != '"'),
           raw ++ (input.drop s.position).takeWhile (fun c => c != '"'),
           ⟨s.position + ((input.drop s.position).takeWhile (fun c => c != '"')).length,
            l', c'⟩) := by
  intro fuel
  induction fuel with
  | zero =>
    intro s value raw h
    have hle : input.length ≤ s.position := Nat.le_of_sub_eq_zero (Nat.le_zero.mp h)
    rw [List.drop_eq_nil_of_le hle]
    exact ⟨s.line, s.column, by simp [quoted_go]⟩
  | succ fuel ih =>
    intro s value raw h
    by_cases hend : s.position < input.length
    · have hd : input.drop s.position = input[s.position] :: input.drop (s.position + 1) :=
        List.drop_eq_getElem_cons hend
      have hcur : current_char input s = input[s.position] :=
        current_char_eq_getElem input s hend
      by_cases hq : input[s.position] = '"'
      · have hcond : ¬(is_at_end input s = false ∧ current_char input s ≠ '"') := by
          rintro ⟨-, hc⟩
          rw [hcur] at hc
          exact hc hq
        rw [quoted_go, if_neg hcond, hd, List.takeWhile_cons]
        rw [if_neg (by simp [hq])]
        exact ⟨s.line, s.column, by simp⟩
      · have hcond : is_at_end input s = false ∧ current_char input s ≠ '"' := by
          refine ⟨by simp [is_at_end, Nat.not_le.mpr hend], ?_⟩
          rw [hcur]
          exact hq
        rw [quoted_go, if_pos hcond]
        simp only [hcur]
        have hs1pos : ∀ s1 : LexState, s1.position = s.position →
            advance input s1 = ⟨s.position + 1, s1.line, s1.column⟩ := by
          intro s1 h1
          simp [advance, h1, hend]
        set s1 := if input[s.position] = '\n' then
            { s with line := s.line + 1, column := 1 } else bump_col s with hs1
        have h1p : s1.position = s.position := by
          rw [hs1]
          split <;> rfl
        rw [hs1pos s1 h1p]
        obtain ⟨l', c', hrec⟩ := ih ⟨s.position + 1, s1.line, s1.column⟩
          (value ++ [input[s.position]]) (raw ++ [input[s.position]]) (by simp; omega)
        refine ⟨l', c', ?_⟩
        rw [hrec, hd, List.takeWhile_cons, if_pos (by simp [hq])]
        simp [Nat.add_assoc, Nat.add_comm 1]
    · have hle : input.length ≤ s.position := Nat.not_lt.mp hend
      rw [List.drop_eq_nil_of_le hle]
      have hcond : ¬(is_at_end input s = false ∧ current_char input s ≠ '"') := by
        rintro ⟨hc, -⟩
        simp [is_at_end, hle] at hc
      rw [quoted_go, if_neg hcond]
      exact ⟨s.line, s.column, by simp⟩

/-- A two-character look-ahead that returns two characters pins down the
two characters after the cursor and bounds the input length. -/
theorem peek_ahead_two (input : List Char) (s : LexState) (c1 c2 : Char)
    (h : peek_ahead input s 2 = [c1, c2]) :
    s.position + 2 < input.length ∧ input[s.position + 1]? = some c1 ∧
      input[s.position + 2]? = some c2 := by
  have hr : List.range 2 = [0, 1] := by decide
  unfold peek_ahead at h
  rw [hr] at h
  cases ha : input[s.position + 0 + 1]? with
  | none => simp [List.filterMap_cons, ha] at h <;>
      cases hb : input[s.position + 1 + 1]? <;> simp [hb] at h
  | some a =>
    cases hb : input[s.position + 1 + 1]? with
    | none => simp [List.filterMap_cons, ha, hb] at h
    | some b =>
      simp only [List.filterMap_cons, ha, hb, List.filterMap_nil] at h
      have hab : a = c1 ∧ b = c2 := by simpa using h
      have hlt : s.position + 1 + 1 < input.length := by
        by_contra hge
        rw [List.getElem?_eq_none (by omega)] at hb
        exact Option.noConfusion hb
      refine ⟨by omega, ?_, ?_⟩
      · simpa [show s.position + 0 + 1 = s.position + 1 by omega, hab.1] using ha
      · simpa [show s.position + 1 + 1 = s.position + 2 by omega, hab.2] using hb

/-- `peek_ahead` depends only on the cursor position. -/
theorem peek_ahead_congr (input : List Char) (s s' : LexState) (n : Nat)
    (h : s.position = s'.position) :
    peek_ahead input s n = peek_ahead input s' n := by
  simp [peek_ahead, h]

/-- The reclassification never produces the `Eof` kind. -/
theorem classify_word_ne_eof (value : List Char) : classify_word value ≠ .Eof := by
  unfold classify_word
  repeat' split
  all_goals simp

theorem read_word_or_operator_spec (input : List Char) (s : LexState) :
    read_word_or_operator input s =
      (.ok (some ⟨classify_word ((input.drop s.position).takeWhile is_word_char),
        ⟨current_position s,
         ⟨s.line, s.column + ((input.drop s.position).takeWhile is_word_char).length,
          s.position + ((input.drop s.position).takeWhile is_word_char).length⟩⟩,
        (input.drop s.position).takeWhile is_word_char⟩),
       ⟨s.position + ((input.drop s.position).takeWhile is_word_char).length, s.line,
        s.column + ((input.drop s.position).takeWhile is_word_char).length⟩) := by
  unfold read_word_or_operator
  rw [munch_go_spec input is_word_char _ s [] (Nat.le_refl _)]
  rfl

theorem read_number_spec_dash (input : List Char) (s : LexState)
    (hend : s.position < input.length) (hc : current_char input s = '-') :
    read_number input s =
      (.ok (some ⟨.Number ('-' ::
          (input.drop (s.position + 1)).takeWhile is_number_char),
        ⟨current_position s,
         ⟨s.line, s.column + 1 + ((input.drop (s.position + 1)).takeWhile is_number_char).length,
          s.position + 1 + ((input.drop (s.position + 1)).takeWhile is_number_char).length⟩⟩,
        '-' :: (input.drop (s.position + 1)).takeWhile is_number_char⟩),
       ⟨s.position + 1 + ((input.drop (s.position + 1)).takeWhile is_number_char).length,
        s.line,
        s.column + 1 + ((input.drop (s.position + 1)).takeWhile is_number_char).length⟩) := by
  unfold read_number
  rw [if_pos hc, hc]
  have hadv : bump_col (advance input s) =
      (⟨s.position + 1, s.line, s.column + 1⟩ : LexState) := by
    simp [bump_col, advance, hend]
  rw [hadv]
  dsimp only
  rw [munch_go_spec input is_number_char _ ⟨s.position + 1, s.line, s.column + 1⟩ ['-']
    (Nat.le_refl _)]
  simp [Nat.add_assoc, Nat.add_comm 1, current_position]

theorem read_number_spec_nodash (input : List Char) (s : LexState)
    (hc : ¬ current_char input s = '-') :
    read_number input s =
      (.ok (some ⟨.Number ((input.drop s.position).takeWhile is_number_char),
        ⟨current_position s,
         ⟨s.line, s.column + ((input.drop s.position).takeWhile is_number_char).length,
          s.position + ((input.drop s.position).takeWhile is_number_char).length⟩⟩,
        (input.drop s.position).takeWhile is_number_char⟩),
       ⟨s.position + ((input.drop s.position).takeWhile is_number_char).length, s.line,
        s.column + ((input.drop s.position).takeWhile is_number_char).length⟩) := by
  unfold read_number
  rw [if_neg hc]
  dsimp only
  rw [munch_go_spec input is_number_char _ s [] (Nat.le_refl _)]
  rfl

theorem read_hashtag_spec (input : List Char) (s : LexState)
    (hend : s.position < input.length) :
    read_hashtag input s =
      (.ok (some ⟨.Hashtag ((input.drop (s.position + 1)).takeWhile is_tag_char),
        ⟨current_position s,
         ⟨s.line, s.column + 1 + ((input.drop (s.position + 1)).takeWhile is_tag_char).length,
          s.position + 1 + ((input.drop (s.position + 1)).takeWhile is_tag_char).length⟩⟩,
        '#' :: (input.drop (s.position + 1)).takeWhile is_tag_char⟩),
       ⟨s.position + 1 + ((input.drop (s.position + 1)).takeWhile is_tag_char).length,
        s.line,
        s.column + 1 + ((input.drop (s.position + 1)).takeWhile is_tag_char).length⟩) := by
  unfold read_hashtag
  have hadv : bump_col (advance input s) =
      (⟨s.position + 1, s.line, s.column + 1⟩ : LexState) := by
    simp [bump_col, advance, hend]
  rw [hadv]
  dsimp only
  rw [munch_go_spec input is_tag_char _ ⟨s.position + 1, s.line, s.column + 1⟩ []
    (Nat.le_refl _)]
  simp [Nat.add_assoc, Nat.add_comm 1, current_position]

theorem read_mention_spec (input : List Char) (s : LexState)
    (hend : s.position < input.length) :
    read_mention input s =
      (.ok (some ⟨.Mention ((input.drop (s.position + 1)).takeWhile is_tag_char),
        ⟨current_position s,
         ⟨s.line, s.column + 1 + ((input.drop (s.position + 1)).takeWhile is_tag_char).length,
          s.position + 1 + ((input.drop (s.position + 1)).takeWhile is_tag_char).length⟩⟩,
        '@' :: (input.drop (s.position + 1)).takeWhile is_tag_char⟩),
       ⟨s.position + 1 + ((input.drop (s.position + 1)).takeWhile is_tag_char).length,
        s.line,
        s.column + 1 + ((input.drop (s.position + 1)).takeWhile is_tag_char).length⟩) := by
  unfold read_mention
  have hadv : bump_col (advance input s) =
      (⟨s.position + 1, s.line, s.column + 1⟩ : LexState) := by
    simp [bump_col, advance, hend]
  rw [hadv]
  dsimp only
  rw [munch_go_spec input is_tag_char _ ⟨s.position + 1, s.line, s.column + 1⟩ []
    (Nat.le_refl _)]
  simp [Nat.add_assoc, Nat.add_comm 1, current_position]

theorem read_comment_start_spec (input : List Char) (s : LexState)
    (hend : s.position + 2 < input.length) :
    read_comment_start input s =
      (.ok (some ⟨.CommentStart,
        ⟨current_position s, ⟨s.line, s.column + 3, s.position + 3⟩⟩, ['<', '<', '<']⟩),
       ⟨s.position + 3, s.line, s.column + 3⟩) := by
  unfold read_comment_start
  have h1 : advance input s = ({ s with position := s.position + 1 } : LexState) := by
    simp [advance]; omega
  have h2 : advance input ({ s with position := s.position + 1 } : LexState)
      = ({ s with position := s.position + 2 } : LexState) := by
    simp [advance]; omega
  have h3 : advance input ({ s with position := s.position + 2 } : LexState)
      = ({ s with position := s.position + 3 } : LexState) := by
    simp [advance]; omega
  rw [h1, h2, h3]
  rfl

theorem read_comment_end_spec (input : List Char) (s : LexState)
    (hend : s.position + 2 < input.length) :
    read_comment_end input s =
      (.ok (some ⟨.CommentEnd,
        ⟨current_position s, ⟨s.line, s.column + 3, s.position + 3⟩⟩, ['>', '>', '>']⟩),
       ⟨s.position + 3, s.line, s.column + 3⟩) := by
  unfold read_comment_end
  have h1 : advance input s = ({ s with position := s.position + 1 } : LexState) := by
    simp [advance]; omega
  have h2 : advance input ({ s with position := s.position + 1 } : LexState)
      = ({ s with position := s.position + 2 } : LexState) := by
    simp [advance]; omega
  have h3 : advance input ({ s with position := s.position + 2 } : LexState)
      = ({ s with position := s.position + 3 } : LexState) := by
    simp [advance]; omega
  rw [h1, h2, h3]
  rfl

/-- `read_quoted_string` at an opening quote: either a closing quote exists
and one `QuotedString` token covering the whole quoted run is produced,
with raw text equal to the consumed substring, or the rest of the input has
no quote and the unterminated-string error is reported at the opening
position. -/
theorem read_quoted_string_spec (input : List Char) (s : LexState)
    (hend : s.position < input.length) (hq : current_char input s = '"') :
    (∃ t s', read_quoted_string input s = (.ok (some t), s') ∧
       t.span.start = current_position s ∧ t.span.stop = current_position s' ∧
       t.raw = extract input s.position s'.position ∧
       t.token_type ≠ .Eof ∧ t.token_type ≠ .Whitespace ∧
       s.position < s'.position ∧ s'.position ≤ input.length)
  ∨ (∃ s', read_quoted_string input s =
        (.error (.LexerError (current_position s) unterminated_msg), s') ∧
       (∀ c ∈ input.drop (s.position + 1), c ≠ '"') ∧
       s.position < s'.position ∧ s'.position ≤ input.length) := by
  unfold read_quoted_string
  have hadv : bump_col (advance input s) =
      (⟨s.position + 1, s.line, s.column + 1⟩ : LexState) := by
    simp [bump_col, advance, hend]
  rw [hq, hadv]
  obtain ⟨l', c', hrec⟩ := quoted_go_spec input (input.length - (s.position + 1))
    ⟨s.position + 1, s.line, s.column + 1⟩ [] ['"'] (Nat.le_refl _)
  dsimp only at hrec ⊢
  rw [hrec]
  set t := (input.drop (s.position + 1)).takeWhile (fun c => c != '"') with ht
  have htle : t.length ≤ input.length - (s.position + 1) := by
    rw [ht]
    have hple := (List.takeWhile_prefix (l := input.drop (s.position + 1))
      (fun c => c != '"')).length_le
    rw [List.length_drop] at hple
    exact hple
  by_cases hclose : s.position + 1 + t.length < input.length
  · left
    have hae : is_at_end input ⟨s.position + 1 + t.length, l', c'⟩ = false := by
      simp only [is_at_end, decide_eq_false_iff_not, Nat.not_le]
      exact hclose
    rw [hae]
    simp only [Bool.false_eq_true, if_false]
    obtain ⟨cq, hcq, hpq⟩ := getElem?_after_takeWhile input (fun c => c != '"')
      (s.position + 1) (by rw [← ht]; omega)
    rw [← ht] at hcq
    have hcq' : cq = '"' := by simpa using hpq
    have hcurq : current_char input ⟨s.position + 1 + t.length, l', c'⟩ = cq := by
      rw [current_char_eq_getElem input _ hclose]
      rw [List.getElem?_eq_getElem hclose] at hcq
      exact Option.some.inj hcq
    have hadv2 : bump_col (advance input ⟨s.position + 1 + t.length, l', c'⟩) =
        (⟨s.position + 1 + t.length + 1, l', c' + 1⟩ : LexState) := by
      simp [bump_col, advance, hclose]
    rw [hcurq, hadv2]
    refine ⟨_, _, rfl, rfl, rfl, ?_, by simp, by simp, by dsimp only; omega,
      by dsimp only; omega⟩
    have hgq : input[s.position] = '"' := by
      rw [← current_char_eq_getElem input s hend, hq]
    have e1 : extract input s.position (s.position + 1) = ['"'] := by
      rw [extract_single input s.position hend, hgq]
    have e2 : extract input (s.position + 1) (s.position + 1 + t.length) = t := by
      rw [ht]
      exact extract_takeWhile input (fun c => c != '"') (s.position + 1)
    have e3 : extract input (s.position + 1 + t.length) (s.position + 1 + t.length + 1)
        = [cq] := by
      rw [extract_single input _ hclose]
      rw [List.getElem?_eq_getElem hclose] at hcq
      rw [Option.some.inj hcq]
    show ('"' :: ([] ++ t) ++ [cq] : List Char)
        = extract input s.position (s.position + 1 + t.length + 1)
    rw [extract_append input s.position (s.position + 1 + t.length)
      (s.position + 1 + t.length + 1) (by omega) (by omega)]
    rw [extract_append input s.position (s.position + 1)
      (s.position + 1 + t.length) (by omega) (by omega)]
    rw [e1, e2, e3]
    simp
  · right
    have hae : is_at_end input ⟨s.position + 1 + t.length, l', c'⟩ = true := by
      simp only [is_at_end, decide_eq_true_eq]
      omega
    rw [hae]
    simp only [if_true]
    refine ⟨_, rfl, ?_, by dsimp only; omega, by dsimp only; omega⟩
    intro c hc
    have hall := (takeWhile_all_iff input (fun c => c != '"') (s.position + 1)
      (by omega)).mp (by rw [← ht]; omega)
    have := hall c hc
    simpa using this

/-- `extract_single` with the upper offset given in any syntactic form. -/
theorem extract_single_of_eq (input : List Char) (a b : Nat) (hab : b = a + 1)
    (h : a < input.length) :
    extract input a b = [input[a]] := by
  subst hab
  exact extract_single input a h

/-- The run a `takeWhile` takes from offset `a` fits in the input. -/
theorem takeWhile_drop_length_le (input : List Char) (p : Char → Bool) (a : Nat) :
    ((input.drop a).takeWhile p).length ≤ input.length - a := by
  have hple := (List.takeWhile_prefix (l := input.drop a) p).length_le
  rwa [List.length_drop] at hple

/-- A `takeWhile` run whose first character satisfies the predicate is
non-empty. -/
theorem takeWhile_drop_pos (input : List Char) (p : Char → Bool) (a : Nat)
    (h : a < input.length) (hp : p input[a] = true) :
    0 < ((input.drop a).takeWhile p).length := by
  rw [List.drop_eq_getElem_cons h, List.takeWhile_cons, if_pos hp]
  simp

/-- A word-start character belongs to the word-run character class. -/
theorem is_word_char_of_start (c : Char)
    (hc : rust_is_alphabetic c = true ∨ c = '_' ∨ c = '*' ∨ c = '?') :
    is_word_char c = true := by
  rcases hc with hc | hc | hc | hc <;>
    simp_all [is_word_char, rust_is_alphanumeric, rust_is_alphabetic, Char.isAlphanum]

/-- `next_token` on a not-yet-exhausted input: either it emits one
non-`Eof` token whose span starts at the cursor, ends at the new cursor,
and whose raw text is exactly the consumed substring, or it fails with a
`LexerError` at the cursor that is either the unterminated-quote error at
an opening quote never closed, or the unexpected-character error naming an
unrecognized character; in every case the cursor strictly advances and
stays within bounds. -/
theorem next_token_spec (input : List Char) (s : LexState)
    (h : s.position < input.length) :
    (∃ t s', next_token input s = (.ok (some t), s') ∧
       t.span.start = current_position s ∧ t.span.stop = current_position s' ∧
       t.raw = extract input s.position s'.position ∧
       t.token_type ≠ .Eof ∧
       s.position < s'.position ∧ s'.position ≤ input.length)
  ∨ (∃ msg s',
       next_token input s = (.error (.LexerError (current_position s) msg), s') ∧
       s.position < s'.position ∧ s'.position ≤ input.length ∧
       ((current_char input s = '"' ∧ msg = unterminated_msg ∧
           ∀ c ∈ input.drop (s.position + 1), c ≠ '"')
        ∨ (msg = unexpected_char_msg (current_char input s) ∧
           unrecognized_at input s.position))) := by
  have hne : is_at_end input s = false := by
    simp [is_at_end, Nat.not_le.mpr h]
  have hcur : current_char input s = input[s.position] := current_char_eq_getElem input s h
  have hadv1 : bump_col (advance input s) =
      (⟨s.position + 1, s.line, s.column + 1⟩ : LexState) := by
    simp [bump_col, advance, h]
  have hadv0 : advance input s = (⟨s.position + 1, s.line, s.column⟩ : LexState) := by
    simp [advance, h]
  have hext1 : extract input s.position (s.position + 1) = [current_char input s] := by
    rw [extract_single input _ h, hcur]
  unfold next_token
  rw [hne]
  simp only [Bool.false_eq_true, if_false]
  by_cases hws : current_char input s = ' ' ∨ current_char input s = '\t' ∨
      current_char input s = '\r' ∨ current_char input s = '\n'
  · rw [if_pos hws, hadv0]
    by_cases hnl : current_char input s = '\n'
    · rw [if_pos hnl]
      refine Or.inl ⟨_, _, rfl, rfl, rfl, ?_, by simp, by dsimp only; omega,
        by dsimp only; omega⟩
      dsimp only
      exact hext1.symm
    · rw [if_neg hnl]
      refine Or.inl ⟨_, _, rfl, rfl, rfl, ?_, by simp, by dsimp only [bump_col]; omega,
        by dsimp only [bump_col]; omega⟩
      dsimp only [bump_col]
      exact hext1.symm
  · rw [if_neg hws]
    by_cases hquo : current_char input s = '"'
    · rw [if_pos hquo]
      rcases read_quoted_string_spec input s h hquo with
        ⟨t, s', heq, h1, h2, h3, h4, h5, h6, h7⟩ | ⟨s', heq, hnq, h5, h6⟩
      · exact Or.inl ⟨t, s', heq, h1, h2, h3, h4, h6, h7⟩
      · exact Or.inr ⟨unterminated_msg, s', heq, h5, h6, Or.inl ⟨hquo, rfl, hnq⟩⟩
    · rw [if_neg hquo]
      by_cases hlp : current_char input s = '('
      · rw [if_pos hlp, hadv1]
        refine Or.inl ⟨_, _, rfl, rfl, rfl, ?_, by simp, by dsimp only; omega,
          by dsimp only; omega⟩
        dsimp only
        rw [hext1, hlp]
      · rw [if_neg hlp]
        by_cases hrp : current_char input s = ')'
        · rw [if_pos hrp, hadv1]
          refine Or.inl ⟨_, _, rfl, rfl, rfl, ?_, by simp, by dsimp only; omega,
            by dsimp only; omega⟩
          dsimp only
          rw [hext1, hrp]
        · rw [if_neg hrp]
          by_cases hlbk : current_char input s = '['
          · rw [if_pos hlbk, hadv1]
            refine Or.inl ⟨_, _, rfl, rfl, rfl, ?_, by simp, by dsimp only; omega,
              by dsimp only; omega⟩
            dsimp only
            rw [hext1, hlbk]
          · rw [if_neg hlbk]
            by_cases hrbk : current_char input s = ']'
            · rw [if_pos hrbk, hadv1]
              refine Or.inl ⟨_, _, rfl, rfl, rfl, ?_, by simp, by dsimp only; omega,
                by dsimp only; omega⟩
              dsimp only
              rw [hext1, hrbk]
            · rw [if_neg hrbk]
              by_cases hlbr : current_char input s = '\x7b'
              · rw [if_pos hlbr, hadv1]
                refine Or.inl ⟨_, _, rfl, rfl, rfl, ?_, by simp, by dsimp only; omega,
                  by dsimp only; omega⟩
                dsimp only
                rw [hext1, hlbr]
              · rw [if_neg hlbr]
                by_cases hrbr : current_char input s = '\x7d'
                · rw [if_pos hrbr, hadv1]
                  refine Or.inl ⟨_, _, rfl, rfl, rfl, ?_, by simp,
                    by dsimp only; omega, by dsimp only; omega⟩
                  dsimp only
                  rw [hext1, hrbr]
                · rw [if_neg hrbr]
                  by_cases htl : current_char input s = '~'
                  · rw [if_pos htl, hadv1]
                    refine Or.inl ⟨_, _, rfl, rfl, rfl, ?_, by simp,
                      by dsimp only; omega, by dsimp only; omega⟩
                    dsimp only
                    rw [hext1, htl]
                  · rw [if_neg htl]
                    by_cases hcl : current_char input s = ':'
                    · rw [if_pos hcl, hadv1]
                      refine Or.inl ⟨_, _, rfl, rfl, rfl, ?_, by simp,
                        by dsimp only; omega, by dsimp only; omega⟩
                      dsimp only
                      rw [hext1, hcl]
                    · rw [if_neg hcl]
                      by_cases hcs : current_char input s = '<' ∧
                          peek_ahead input s 2 = ['<', '<']
                      · rw [if_pos hcs]
                        obtain ⟨hlt2, hp1, hp2⟩ := peek_ahead_two input s '<' '<' hcs.2
                        rw [read_comment_start_spec input s hlt2]
                        refine Or.inl ⟨_, _, rfl, rfl, rfl, ?_, by simp,
                          by dsimp only; omega, by dsimp only; omega⟩
                        dsimp only
                        have e1 : extract input s.position (s.position + 1)
                            = [input[s.position]] := extract_single input _ h
                        have e2 : extract input (s.position + 1) (s.position + 2)
                            = [input[s.position + 1]] :=
                          extract_single_of_eq input (s.position + 1) (s.position + 2) (by omega) (by omega)
                        have e3 : extract input (s.position + 2) (s.position + 3)
                            = [input[s.position + 2]] :=
                          extract_single_of_eq input (s.position + 2) (s.position + 3) (by omega) (by omega)
                        rw [extract_append input s.position (s.position + 1)
                          (s.position + 3) (by omega) (by omega),
                          extract_append input (s.position + 1) (s.position + 2)
                          (s.position + 3) (by omega) (by omega), e1, e2, e3]
                        have g0 : input[s.position] = '<' := by rw [← hcur, hcs.1]
                        have g1 : input[s.position + 1] = '<' := by
                          rw [List.getElem?_eq_getElem
                            (by omega : s.position + 1 < input.length)] at hp1
                          exact Option.some.inj hp1
                        have g2 : input[s.position + 2] = '<' := by
                          rw [List.getElem?_eq_getElem
                            (by omega : s.position + 2 < input.length)] at hp2
                          exact Option.some.inj hp2
                        rw [g0, g1, g2]
                        rfl
                      · rw [if_neg hcs]
                        by_cases hce : current_char input s = '>' ∧
                            peek_ahead input s 2 = ['>', '>']
                        · rw [if_pos hce]
                          obtain ⟨hlt2, hp1, hp2⟩ := peek_ahead_two input s '>' '>' hce.2
                          rw [read_comment_end_spec input s hlt2]
                          refine Or.inl ⟨_, _, rfl, rfl, rfl, ?_, by simp,
                            by dsimp only; omega, by dsimp only; omega⟩
                          dsimp only
                          have e1 : extract input s.position (s.position + 1)
                              = [input[s.position]] := extract_single input _ h
                          have e2 : extract input (s.position + 1) (s.position + 2)
                              = [input[s.position + 1]] :=
                            extract_single_of_eq input (s.position + 1) (s.position + 2) (by omega) (by omega)
                          have e3 : extract input (s.position + 2) (s.position + 3)
                              = [input[s.position + 2]] :=
                            extract_single_of_eq input (s.position + 2) (s.position + 3) (by omega) (by omega)
                          rw [extract_append input s.position (s.position + 1)
                            (s.position + 3) (by omega) (by omega),
                            extract_append input (s.position + 1) (s.position + 2)
                            (s.position + 3) (by omega) (by omega), e1, e2, e3]
                          have g0 : input[s.position] = '>' := by rw [← hcur, hce.1]
                          have g1 : input[s.position + 1] = '>' := by
                            rw [List.getElem?_eq_getElem
                              (by omega : s.position + 1 < input.length)] at hp1
                            exact Option.some.inj hp1
                          have g2 : input[s.position + 2] = '>' := by
                            rw [List.getElem?_eq_getElem
                              (by omega : s.position + 2 < input.length)] at hp2
                            exact Option.some.inj hp2
                          rw [g0, g1, g2]
                          rfl
                        · rw [if_neg hce]
                          by_cases hhs : current_char input s = '#'
                          · rw [if_pos hhs, read_hashtag_spec input s h]
                            refine Or.inl ⟨_, _, rfl, rfl, rfl, ?_, by simp,
                              by dsimp only; omega, ?_⟩
                            · dsimp only
                              rw [extract_append input s.position (s.position + 1)
                                (s.position + 1 +
                                  ((input.drop (s.position + 1)).takeWhile is_tag_char).length)
                                (by omega) (by omega)]
                              rw [hext1, hhs, extract_takeWhile]
                              rfl
                            · dsimp only
                              have := takeWhile_drop_length_le input is_tag_char
                                (s.position + 1)
                              omega
                          · rw [if_neg hhs]
                            by_cases hat : current_char input s = '@'
                            · rw [if_pos hat, read_mention_spec input s h]
                              refine Or.inl ⟨_, _, rfl, rfl, rfl, ?_, by simp,
                                by dsimp only; omega, ?_⟩
                              · dsimp only
                                rw [extract_append input s.position (s.position + 1)
                                  (s.position + 1 +
                                    ((input.drop (s.position + 1)).takeWhile is_tag_char).length)
                                  (by omega) (by omega)]
                                rw [hext1, hat, extract_takeWhile]
                                rfl
                              · dsimp only
                                have := takeWhile_drop_length_le input is_tag_char
                                  (s.position + 1)
                                omega
                            · rw [if_neg hat]
                              by_cases hnum : (current_char input s).isDigit = true ∨
                                  current_char input s = '-'
                              · rw [if_pos hnum]
                                by_cases hdash : current_char input s = '-'
                                · rw [read_number_spec_dash input s h hdash]
                                  refine Or.inl ⟨_, _, rfl, rfl, rfl, ?_, by simp,
                                    by dsimp only; omega, ?_⟩
                                  · dsimp only
                                    rw [extract_append input s.position (s.position + 1)
                                      (s.position + 1 +
                                        ((input.drop (s.position + 1)).takeWhile
                                          is_number_char).length)
                                      (by omega) (by omega)]
                                    rw [hext1, hdash, extract_takeWhile]
                                    rfl
                                  · dsimp only
                                    have := takeWhile_drop_length_le input is_number_char
                                      (s.position + 1)
                                    omega
                                · rw [read_number_spec_nodash input s hdash]
                                  have hdig : (current_char input s).isDigit = true := by
                                    rcases hnum with hd | hd
                                    · exact hd
                                    · exact absurd hd hdash
                                  have hnc : is_number_char input[s.position] = true := by
                                    rw [← hcur]
                                    simp [is_number_char, hdig]
                                  refine Or.inl ⟨_, _, rfl, rfl, rfl, ?_, by simp, ?_, ?_⟩
                                  · dsimp only
                                    rw [extract_takeWhile]
                                  · dsimp only
                                    have := takeWhile_drop_pos input is_number_char
                                      s.position h hnc
                                    omega
                                  · dsimp only
                                    have := takeWhile_drop_length_le input is_number_char
                                      s.position
                                    omega
                              · rw [if_neg hnum]
                                by_cases hword : rust_is_alphabetic (current_char input s)
                                    = true ∨ current_char input s = '_' ∨
                                    current_char input s = '*' ∨ current_char input s = '?'
                                · rw [if_pos hword, read_word_or_operator_spec input s]
                                  have hwc : is_word_char input[s.position] = true := by
                                    rw [← hcur]
                                    exact is_word_char_of_start _ hword
                                  refine Or.inl ⟨_, _, rfl, rfl, rfl, ?_,
                                    classify_word_ne_eof _, ?_, ?_⟩
                                  · dsimp only
                                    rw [extract_takeWhile]
                                  · dsimp only
                                    have := takeWhile_drop_pos input is_word_char
                                      s.position h hwc
                                    omega
                                  · dsimp only
                                    have := takeWhile_drop_length_le input is_word_char
                                      s.position
                                    omega
                                · rw [if_neg hword, hadv1]
                                  refine Or.inr ⟨_, _, rfl, by dsimp only; omega,
                                    by dsimp only; omega, Or.inr ⟨rfl, ?_⟩⟩
                                  have hpeq : peek_ahead input s 2
                                      = peek_ahead input ⟨s.position, 1, 1⟩ 2 :=
                                    peek_ahead_congr input s ⟨s.position, 1, 1⟩ 2 rfl
                                  refine ⟨hws, hquo, hlp, hrp, hlbk, hrbk, hlbr, hrbr,
                                    htl, hcl, ?_, ?_, hhs, hat, hnum, hword⟩
                                  · rintro ⟨hc1, hc2⟩
                                    exact hcs ⟨hc1, hpeq.trans hc2⟩
                                  · rintro ⟨hc1, hc2⟩
                                    exact hce ⟨hc1, hpeq.trans hc2⟩

/-- The `Whitespace` filter of the tokenize loop, as a `filter`
predicate. -/
theorem ws_match_eq_filter (t : Token) :
    (match t.token_type with
      | TokenType.Whitespace => ([] : List Token)
      | _ => [t])
      = List.filter (fun t => !decide (t.token_type = TokenType.Whitespace)) [t] := by
  cases htt : t.token_type <;> simp [List.filter, htt]

/-- Consumed substring plus the rest reassembles the remaining input. -/
theorem extract_append_drop (input : List Char) (a b : Nat) (hab : a ≤ b)
    (hb : b ≤ input.length) :
    extract input a b ++ input.drop b = input.drop a := by
  unfold extract
  conv_rhs => rw [← List.take_append_drop (b - a) (input.drop a)]
  rw [List.drop_drop, show a + (b - a) = b by omega]

/-- Joint specification of the scan loops `tokenize_go` (whitespace
filtered) and `lex_all_go` (everything kept), with adequate fuel: either
both fail with the same lexer error of one of the two shapes the scan can
produce, or both succeed; the full token list tiles the remaining input
exactly, the filtered list is its non-whitespace part, the final cursor is
the end of input, and every token's raw text is the substring its span
addresses. -/
theorem lex_loops_spec (input : List Char) :
    ∀ (n : Nat) (s : LexState) (acc : List Token),
      input.length - s.position ≤ n → s.position ≤ input.length →
      (∃ pos msg s',
         tokenize_go input n s acc = (.error (.LexerError pos msg), s') ∧
         lex_all_go input n s = .error (.LexerError pos msg) ∧
         pos.offset < input.length ∧
         ((input.getD pos.offset (Char.ofNat 0) = '"' ∧ msg = unterminated_msg ∧
             ∀ c ∈ input.drop (pos.offset + 1), c ≠ '"')
          ∨ (msg = unexpected_char_msg (input.getD pos.offset (Char.ofNat 0)) ∧
             unrecognized_at input pos.offset)))
    ∨ (∃ l sf,
         lex_all_go input n s = .ok l ∧
         tokenize_go input n s acc =
           (.ok (acc ++ l.filter (fun t => !decide (t.token_type = TokenType.Whitespace))),
            sf) ∧
         sf.position = input.length ∧
         (l.map Token.raw).flatten = input.drop s.position ∧
         (∀ t ∈ l, t.raw = extract input t.span.start.offset t.span.stop.offset ∧
            t.span.stop.offset ≤ input.length ∧ t.token_type ≠ .Eof)) := by
  intro n
  induction n with
  | zero =>
    intro s acc h1 h2
    have hend : input.length ≤ s.position := by omega
    right
    refine ⟨[], s, rfl, by simp [tokenize_go], by omega, ?_, by simp⟩
    rw [List.drop_eq_nil_of_le hend]
    rfl
  | succ n ih =>
    intro s acc h1 h2
    by_cases hend : s.position < input.length
    · have hae : is_at_end input s = false := by
        simp only [is_at_end, decide_eq_false_iff_not, Nat.not_le]
        exact hend
      rcases next_token_spec input s hend with
        ⟨t, s', heq, hstart, hstop, hraw, hne, h5, h6⟩ | ⟨msg, s', heq, h5, h6, hsh⟩
      · have hadq : input.length - s'.position ≤ n := by omega
        rcases ih s' (acc ++ match t.token_type with
            | TokenType.Whitespace => [] | _ => [t]) hadq h6 with
          ⟨pos, msg, s'', ht, hl, hlt, hshape⟩ | ⟨l, sf, hl, ht, hsf, hjoin, hall⟩
        · left
          refine ⟨pos, msg, s'', ?_, ?_, hlt, hshape⟩
          · rw [tokenize_go, if_neg (by simp [hae]), heq]
            dsimp only
            exact ht
          · rw [lex_all_go, if_neg (by simp [hae]), heq]
            dsimp only
            rw [hl]
            rfl
        · right
          refine ⟨t :: l, sf, ?_, ?_, hsf, ?_, ?_⟩
          · rw [lex_all_go, if_neg (by simp [hae]), heq]
            dsimp only
            rw [hl]
            rfl
          · rw [tokenize_go, if_neg (by simp [hae]), heq]
            dsimp only
            rw [ht, ws_match_eq_filter t]
            rw [show List.filter (fun t => !decide (t.token_type = TokenType.Whitespace))
                (t :: l)
              = List.filter (fun t => !decide (t.token_type = TokenType.Whitespace)) [t]
                ++ List.filter (fun t => !decide (t.token_type = TokenType.Whitespace)) l
              from by
                by_cases hp : (!decide (t.token_type = TokenType.Whitespace)) = true <;>
                  simp [List.filter_cons, hp]]
            rw [List.append_assoc]
          · rw [List.map_cons, List.flatten_cons, hjoin, hraw]
            rw [extract_append_drop input s.position s'.position (by omega) h6]
          · intro t' ht'
            rcases List.mem_cons.mp ht' with rfl | hmem
            · refine ⟨?_, ?_, hne⟩
              · rw [hraw, hstart, hstop]
                rfl
              · rw [hstop]
                exact h6
            · exact hall t' hmem
      · left
        refine ⟨current_position s, msg, s', ?_, ?_, ?_, ?_⟩
        · rw [tokenize_go, if_neg (by simp [hae]), heq]
        · rw [lex_all_go, if_neg (by simp [hae]), heq]
        · exact hend
        · rcases hsh with ⟨hq, hm, hnq⟩ | ⟨hm, hur⟩
          · left
            exact ⟨hq, hm, hnq⟩
          · right
            exact ⟨hm, hur⟩
    · have hge : input.length ≤ s.position := by omega
      have hae : is_at_end input s = true := by
        simp only [is_at_end, decide_eq_true_eq]
        exact hge
      right
      refine ⟨[], s, ?_, ?_, by omega, ?_, by simp⟩
      · rw [lex_all_go, if_pos (by simp [hae])]
      · rw [tokenize_go, if_pos (by simp [hae])]
        simp
      · rw [List.drop_eq_nil_of_le hge]
        rfl

/-- C3: `tokenize` either returns a full token sequence, or fails with a
`LexerError` that is exactly one of the two scan failures: an unterminated
quoted string (the error carries the opening quote's position, and no
closing quote follows it) or an unrecognized character (the error carries
that character's position and names it in the message). -/
theorem c3_tokenize_error_characterization (input : List Char) :
    (∃ ts, tokenize input = .ok ts)
  ∨ (∃ pos msg, tokenize input = .error (.LexerError pos msg) ∧
       pos.offset < input.length ∧
       ((input.getD pos.offset (Char.ofNat 0) = '"' ∧ msg = unterminated_msg ∧
           ∀ c ∈ input.drop (pos.offset + 1), c ≠ '"')
        ∨ (msg = unexpected_char_msg (input.getD pos.offset (Char.ofNat 0)) ∧
           unrecognized_at input pos.offset))) := by
  rcases lex_loops_spec input input.length ⟨0, 1, 1⟩ [] (by simp) (by simp) with
    ⟨pos, msg, s', ht, _, hlt, hshape⟩ | ⟨l, sf, _, ht, _, _, _⟩
  · right
    refine ⟨pos, msg, ?_, hlt, hshape⟩
    unfold tokenize
    rw [ht]
  · left
    refine ⟨([] ++ l.filter (fun t => !decide (t.token_type = TokenType.Whitespace)))
      ++ [⟨.Eof, Span.single (current_position sf), []⟩], ?_⟩
    unfold tokenize
    rw [ht]

/-- C7: on success every token's raw text is the exact substring addressed
by its span's offsets, and the full raw-token scan (`lex_all`, whitespace
kept) succeeds, its raw texts concatenate to the original input, and the
returned sequence is exactly its non-whitespace part plus the final `Eof`
token — i.e. concatenating the tokens' raw text with the skipped
whitespace reinserted reconstructs the input. -/
theorem c7_span_roundtrip (input : List Char) (ts : List Token)
    (h : tokenize input = .ok ts) :
    (∀ t ∈ ts, t.raw = extract input t.span.start.offset t.span.stop.offset)
  ∧ ∃ allT, lex_all input = .ok allT ∧
      (allT.map Token.raw).flatten = input ∧
      ∃ p : Position, p.offset = input.length ∧
        ts = allT.filter (fun t => !decide (t.token_type = TokenType.Whitespace))
          ++ [⟨.Eof, Span.single p, []⟩] := by
  rcases lex_loops_spec input input.length ⟨0, 1, 1⟩ [] (by simp) (by simp) with
    ⟨pos, msg, s', ht, _, _, _⟩ | ⟨l, sf, hl, ht, hsf, hjoin, hall⟩
  · unfold tokenize at h
    rw [ht] at h
    exact absurd h (by simp)
  · unfold tokenize at h
    rw [ht] at h
    simp only [List.nil_append, Except.ok.injEq] at h
    subst h
    constructor
    · intro t htm
      rcases List.mem_append.mp htm with hmem | heof
      · exact (hall t (List.mem_filter.mp hmem).1).1
      · rcases List.mem_singleton.mp heof with rfl
        simp [extract, Span.single]
    · refine ⟨l, hl, by simpa using hjoin, current_position sf, hsf, rfl⟩

/-- C8: on success the token sequence contains no `Whitespace` token, ends
with a single zero-width `Eof` token positioned at the end of input, and
`Eof` appears nowhere else. -/
theorem c8_whitespace_eof (input : List Char) (ts : List Token)
    (h : tokenize input = .ok ts) :
    (∀ t ∈ ts, t.token_type ≠ .Whitespace)
  ∧ (∃ p : Position, p.offset = input.length ∧
       ts.getLast? = some ⟨.Eof, Span.single p, []⟩)
  ∧ (∀ t ∈ ts.dropLast, t.token_type ≠ .Eof) := by
  rcases lex_loops_spec input input.length ⟨0, 1, 1⟩ [] (by simp) (by simp) with
    ⟨pos, msg, s', ht, _, _, _⟩ | ⟨l, sf, hl, ht, hsf, hjoin, hall⟩
  · unfold tokenize at h
    rw [ht] at h
    exact absurd h (by simp)
  · unfold tokenize at h
    rw [ht] at h
    simp only [List.nil_append, Except.ok.injEq] at h
    subst h
    refine ⟨?_, ⟨current_position sf, hsf, List.getLast?_concat _⟩, ?_⟩
    · intro t htm
      rcases List.mem_append.mp htm with hmem | heof
      · have := (List.mem_filter.mp hmem).2
        simpa using this
      · rcases List.mem_singleton.mp heof with rfl
        simp
    · rw [List.dropLast_concat]
      intro t htm
      exact (hall t (List.mem_filter.mp htm).1).2.2

/-- `next_token` strictly advances the cursor and stays in bounds. -/
theorem next_token_progress (input : List Char) (s : LexState)
    (h : s.position < input.length) :
    s.position < (next_token input s).2.position ∧
      (next_token input s).2.position ≤ input.length := by
  rcases next_token_spec input s h with
    ⟨t, s', heq, _, _, _, _, h5, h6⟩ | ⟨msg, s', heq, h5, h6, _⟩ <;>
    rw [heq] <;> exact ⟨h5, h6⟩

/-- Any two fuels at least the remaining input length give the scan loop
the same result: the fuel is a proof device, not part of the behaviour. -/
theorem tokenize_go_fuel_irrel (input : List Char) :
    ∀ (fuel1 fuel2 : Nat) (s : LexState) (acc : List Token),
      input.length - s.position ≤ fuel1 → input.length - s.position ≤ fuel2 →
      tokenize_go input fuel1 s acc = tokenize_go input fuel2 s acc := by
  intro fuel1
  induction fuel1 with
  | zero =>
    intro fuel2 s acc h1 h2
    have hge : input.length ≤ s.position := by omega
    have hae : is_at_end input s = true := by
      simp only [is_at_end, decide_eq_true_eq]
      exact hge
    cases fuel2 with
    | zero => rfl
    | succ f2 =>
      rw [tokenize_go, tokenize_go, if_pos (by simp [hae])]
  | succ f ih =>
    intro fuel2 s acc h1 h2
    by_cases hend : s.position < input.length
    · have hae : is_at_end input s = false := by
        simp only [is_at_end, decide_eq_false_iff_not, Nat.not_le]
        exact hend
      cases fuel2 with
      | zero => omega
      | succ f2 =>
        obtain ⟨prog1, prog2⟩ := next_token_progress input s hend
        rw [tokenize_go, tokenize_go, if_neg (by simp [hae]), if_neg (by simp [hae])]
        rcases hnt : next_token input s with ⟨r, s'⟩
        rw [hnt] at prog1 prog2
        dsimp only at prog1 prog2
        cases r with
        | error e => rfl
        | ok o =>
          cases o with
          | none => rfl
          | some t => exact ih f2 s' _ (by omega) (by omega)
    · have hae : is_at_end input s = true := by
        simp only [is_at_end, decide_eq_true_eq]
        omega
      cases fuel2 with
      | zero =>
        rw [tokenize_go, tokenize_go, if_pos (by simp [hae])]
      | succ f2 =>
        rw [tokenize_go, tokenize_go, if_pos (by simp [hae]), if_pos (by simp [hae])]

/-- C10: the scan makes strict progress — whenever the cursor is not at
the end of input, each `next_token` call (token or error alike) advances
the cursor by at least one character while staying in bounds — and the
`tokenize` loop's result does not depend on the fuel once the fuel covers
the remaining input, so the loop always halts having consumed the finite
input monotonically. -/
theorem c10_progress_termination (input : List Char) (s : LexState)
    (h : s.position < input.length) :
    s.position < (next_token input s).2.position
  ∧ (next_token input s).2.position ≤ input.length
  ∧ ∀ (acc : List Token) (fuel1 fuel2 : Nat),
      input.length - s.position ≤ fuel1 → input.length - s.position ≤ fuel2 →
      tokenize_go input fuel1 s acc = tokenize_go input fuel2 s acc := by
  obtain ⟨h1, h2⟩ := next_token_progress input s h
  exact ⟨h1, h2, fun acc fuel1 fuel2 ha1 ha2 =>
    tokenize_go_fuel_irrel input fuel1 fuel2 s acc ha1 ha2⟩

/-- C10 witness at the one-character input `a` with generous and exact
fuel. -/
theorem c10_witness :
    0 < (next_token ['a'] ⟨0, 1, 1⟩).2.position
  ∧ (next_token ['a'] ⟨0, 1, 1⟩).2.position ≤ 1
  ∧ tokenize_go ['a'] 5 ⟨0, 1, 1⟩ [] = tokenize_go ['a'] 1 ⟨0, 1, 1⟩ [] := by
  obtain ⟨h1, h2, h3⟩ := c10_progress_termination ['a'] ⟨0, 1, 1⟩ (by decide)
  exact ⟨h1, by simpa using h2, h3 [] 5 1 (by decide) (by decide)⟩

/-- C7 witness: on `a b`, the word token's raw text is its span's
substring, and the raw texts of the full scan concatenate back to the
input. -/
theorem c7_witness :
    (⟨.Word ['a'], ⟨⟨1, 1, 0⟩, ⟨1, 2, 1⟩⟩, ['a']⟩ : Token).raw
      = extract ['a', ' ', 'b'] 0 1 := by
  have h := c7_span_roundtrip ['a', ' ', 'b']
    [⟨.Word ['a'], ⟨⟨1, 1, 0⟩, ⟨1, 2, 1⟩⟩, ['a']⟩,
     ⟨.Word ['b'], ⟨⟨1, 3, 2⟩, ⟨1, 4, 3⟩⟩, ['b']⟩,
     ⟨.Eof, ⟨⟨1, 4, 3⟩, ⟨1, 4, 3⟩⟩, []⟩] (by rfl)
  exact h.1 _ (by simp)

/-- C8 witness: on `a`, the word token is not whitespace and the last
token is the zero-width `Eof` at offset 1. -/
theorem c8_witness :
    (⟨.Word ['a'], ⟨⟨1, 1, 0⟩, ⟨1, 2, 1⟩⟩, ['a']⟩ : Token).token_type
      ≠ TokenType.Whitespace := by
  have h := c8_whitespace_eof ['a']
    [⟨.Word ['a'], ⟨⟨1, 1, 0⟩, ⟨1, 2, 1⟩⟩, ['a']⟩,
     ⟨.Eof, ⟨⟨1, 2, 1⟩, ⟨1, 2, 1⟩⟩, []⟩] (by rfl)
  exact h.1 _ (by simp)

/-- A run of ASCII digits within range parses as its value. -/
theorem parse_u32_digits (ds : List Char) (hne : ds ≠ [])
    (hdig : ∀ c ∈ ds, c.isDigit = true) (hlt : digits_to_nat ds < 2 ^ 32) :
    parse_u32 ds = some (digits_to_nat ds) := by
  have hplus : ¬ ds.head? = some '+' := by
    cases ds with
    | nil => simp
    | cons c r =>
      simp only [List.head?_cons, Option.some.injEq]
      rintro rfl
      exact absurd (hdig '+' (by simp)) (by decide)
  unfold parse_u32
  rw [if_neg hplus, if_neg hne, if_pos (List.all_eq_true.mpr hdig), if_pos hlt]

/-- A successful `u32` parse of a string that does not start with `+` pins
the string down as a digit run in range. -/
theorem parse_u32_some_shape (s : List Char) (n : Nat)
    (hplus : ¬ s.head? = some '+') (h : parse_u32 s = some n) :
    s ≠ [] ∧ (∀ c ∈ s, c.isDigit = true) ∧ digits_to_nat s = n ∧ n < 2 ^ 32 := by
  unfold parse_u32 at h
  rw [if_neg hplus] at h
  by_cases h1 : s = []
  · rw [if_pos h1] at h
    exact absurd h (by simp)
  · rw [if_neg h1] at h
    by_cases h2 : s.all Char.isDigit
    · rw [if_pos h2] at h
      by_cases h3 : digits_to_nat s < 2 ^ 32
      · rw [if_pos h3] at h
        exact ⟨h1, List.all_eq_true.mp h2, Option.some.inj h, Option.some.inj h ▸ h3⟩
      · rw [if_neg h3] at h
        exact absurd h (by simp)
    · rw [if_neg h2] at h
      exact absurd h (by simp)

/-- A list of word-run characters cannot start with `+`. -/
theorem head_ne_plus_of_word_chars (l : List Char)
    (hl : ∀ c ∈ l, is_word_char c = true) : ¬ l.head? = some '+' := by
  cases l with
  | nil => simp
  | cons c r =>
    simp only [List.head?_cons, Option.some.injEq]
    rintro rfl
    exact absurd (hl '+' (by simp)) (by decide)

/-- C2: the reclassification of a maximal word run (all of whose
characters are word-run characters, as the lexer guarantees): the exact
keywords become operators; `NEAR/` followed by a digit run whose value
fits `u32` becomes `Near`; the same with a trailing `f` becomes
`NearForward`; every other value stays a plain `Word` carrying the full
raw value — reclassification never fails. -/
theorem c2_near_reclassification (value : List Char)
    (hv : ∀ c ∈ value, is_word_char c = true) :
    (value = ['A', 'N', 'D'] → classify_word value = .And)
  ∧ (value = ['O', 'R'] → classify_word value = .Or)
  ∧ (value = ['N', 'O', 'T'] → classify_word value = .Not)
  ∧ (value = ['T', 'O'] → classify_word value = .To)
  ∧ (∀ ds : List Char, ds ≠ [] → (∀ c ∈ ds, c.isDigit = true) →
       digits_to_nat ds < 2 ^ 32 → value = ['N', 'E', 'A', 'R', '/'] ++ ds →
       classify_word value = .Near (digits_to_nat ds))
  ∧ (∀ ds : List Char, ds ≠ [] → (∀ c ∈ ds, c.isDigit = true) →
       digits_to_nat ds < 2 ^ 32 → value = ['N', 'E', 'A', 'R', '/'] ++ ds ++ ['f'] →
       classify_word value = .NearForward (digits_to_nat ds))
  ∧ (value ≠ ['A', 'N', 'D'] → value ≠ ['O', 'R'] → value ≠ ['N', 'O', 'T'] →
     value ≠ ['T', 'O'] →
     (∀ ds : List Char, ds ≠ [] → (∀ c ∈ ds, c.isDigit = true) →
        digits_to_nat ds < 2 ^ 32 →
        value ≠ ['N', 'E', 'A', 'R', '/'] ++ ds ∧
          value ≠ ['N', 'E', 'A', 'R', '/'] ++ ds ++ ['f']) →
     classify_word value = .Word value) := by
  refine ⟨?_, ?_, ?_, ?_, ?_, ?_, ?_⟩
  · rintro rfl; rfl
  · rintro rfl; rfl
  · rintro rfl; rfl
  · rintro rfl; rfl
  · rintro ds hne hdig hlt rfl
    obtain ⟨x, hx⟩ : ∃ x, ds.getLast? = some x := by
      cases hgl : ds.getLast? with
      | none => exact absurd (List.getLast?_eq_none_iff.mp hgl) hne
      | some x => exact ⟨x, rfl⟩
    have hxmem : x ∈ ds := by
      have hdec := List.dropLast_append_getLast? x hx
      rw [← hdec]
      simp
    have hxd : x.isDigit = true := hdig x hxmem
    have hvl : (['N', 'E', 'A', 'R', '/'] ++ ds : List Char).getLast? = some x := by
      rw [List.getLast?_append, hx]
      rfl
    unfold classify_word
    rw [if_neg (by simp), if_neg (by simp), if_neg (by simp), if_neg (by simp)]
    simp only [List.cons_append, List.nil_append]
    rw [if_neg ?hguard]
    case hguard =>
      rintro ⟨hf, -⟩
      simp only [List.cons_append, List.nil_append] at hvl
      rw [hvl] at hf
      have : x = 'f' := Option.some.inj hf
      subst this
      exact absurd hxd (by decide)
    rw [if_pos ?hlen]
    case hlen =>
      simp only [List.length_cons]
      have : 0 < ds.length := List.length_pos.mpr hne
      omega
    rw [parse_u32_digits ds hne hdig hlt]
  · rintro ds hne hdig hlt rfl
    unfold classify_word
    rw [if_neg (by simp), if_neg (by simp), if_neg (by simp), if_neg (by simp)]
    simp only [List.cons_append, List.nil_append, List.append_assoc]
    rw [if_pos ?hguard]
    case hguard =>
      constructor
      · show (('N' : Char) :: ('E' :: ('A' :: ('R' :: ('/' :: (ds ++ ['f'])))))).getLast?
          = some 'f'
        rw [show (('N' : Char) :: ('E' :: ('A' :: ('R' :: ('/' :: (ds ++ ['f']))))))
            = (['N', 'E', 'A', 'R', '/'] ++ ds) ++ ['f'] from by simp]
        exact List.getLast?_concat _
      · simp only [List.length_cons, List.length_append, List.length_nil]
        have := List.length_pos.mpr hne
        omega
    rw [List.dropLast_concat, parse_u32_digits ds hne hdig hlt]
  · intro h1 h2 h3 h4 hno
    unfold classify_word
    simp only [show ("AND".toList = ['A', 'N', 'D']) from rfl,
      show ("OR".toList = ['O', 'R']) from rfl,
      show ("NOT".toList = ['N', 'O', 'T']) from rfl,
      show ("TO".toList = ['T', 'O']) from rfl]
    rw [if_neg h1, if_neg h2, if_neg h3, if_neg h4]
    split
    · rename_i value stripped
      split_ifs with hf hl
      · cases hp : parse_u32 stripped.dropLast with
        | none => rfl
        | some d =>
          exfalso
          have hsne : stripped ≠ [] := by
            rintro rfl
            exact absurd hf.1 (by decide)
          have hlast : stripped.getLast? = some 'f' := by
            have hgf := hf.1
            rw [show (('N' : Char) :: 'E' :: 'A' :: 'R' :: '/' :: stripped)
                = ['N', 'E', 'A', 'R', '/'] ++ stripped from by simp,
              List.getLast?_append] at hgf
            cases hgl : stripped.getLast? with
            | none => exact absurd (List.getLast?_eq_none_iff.mp hgl) hsne
            | some y => simpa [hgl] using hgf
          have hdecomp : stripped.dropLast ++ ['f'] = stripped :=
            List.dropLast_append_getLast? 'f' hlast
          have hwdl : ∀ c ∈ stripped.dropLast, is_word_char c = true := by
            intro c hc
            apply hv
            have hcs : c ∈ stripped := by
              rw [← hdecomp]
              exact List.mem_append_left _ hc
            simp [hcs]
          have hplus := head_ne_plus_of_word_chars _ hwdl
          obtain ⟨hdne, hdig, hval, hbound⟩ := parse_u32_some_shape _ _ hplus hp
          apply (hno stripped.dropLast hdne hdig (by rw [hval]; exact hbound)).2
          rw [← hdecomp]
          simp
      · cases hp : parse_u32 stripped with
        | none => rfl
        | some d =>
          exfalso
          have hsw : ∀ c ∈ stripped, is_word_char c = true := by
            intro c hc
            apply hv
            simp [hc]
          have hplus := head_ne_plus_of_word_chars _ hsw
          obtain ⟨hdne, hdig, hval, hbound⟩ := parse_u32_some_shape _ _ hplus hp
          exact (hno stripped hdne hdig (by rw [hval]; exact hbound)).1 (by simp)
      · rfl
    · rfl

/-- C2 witness: `NEAR/5` reclassifies to `Near 5`, `NEAR/5f` to
`NearForward 5`, and `NEAR/abc` stays the plain word `NEAR/abc`. -/
theorem c2_witness :
    classify_word ['N', 'E', 'A', 'R', '/', '5'] = .Near 5
  ∧ classify_word ['N', 'E', 'A', 'R', '/', '5', 'f'] = .NearForward 5
  ∧ classify_word ['N', 'E', 'A', 'R', '/', 'a', 'b', 'c']
      = .Word ['N', 'E', 'A', 'R', '/', 'a', 'b', 'c'] := by
  refine ⟨?_, ?_, ?_⟩
  · exact (c2_near_reclassification ['N', 'E', 'A', 'R', '/', '5']
      (by decide)).2.2.2.2.1 ['5'] (by decide) (by decide) (by decide) (by decide)
  · exact (c2_near_reclassification ['N', 'E', 'A', 'R', '/', '5', 'f']
      (by decide)).2.2.2.2.2.1 ['5'] (by decide) (by decide) (by decide) (by decide)
  · refine (c2_near_reclassification ['N', 'E', 'A', 'R', '/', 'a', 'b', 'c']
      (by decide)).2.2.2.2.2.2 (by decide) (by decide) (by decide) (by decide) ?_
    refine fun ds hne hdig hlt => ⟨?_, ?_⟩
    · intro heq
      have hds : ds = ['a', 'b', 'c'] :=
        (show (['a', 'b', 'c'] : List Char) = ds by simpa using heq).symm
      subst hds
      exact absurd (hdig 'a' (by simp)) (by decide)
    · intro heq
      have h2 : (['a', 'b', 'c'] : List Char) = ds ++ ['f'] := by simpa using heq
      have h3 : ('c' : Char) = 'f' := by
        have h4 := congrArg List.getLast? h2
        rw [List.getLast?_concat] at h4
        simpa using h4
      exact absurd h3 (by decide)

/-- C1 counterexample: on the input `-a` the number branch does fire on
the `-` and emits a standalone `Number` token whose text is just `-`,
rather than falling through to the next lexical rule. -/
theorem c1_counterexample :
    tokenize ['-', 'a'] = .ok
      [⟨.Number ['-'], ⟨⟨1, 1, 0⟩, ⟨1, 2, 1⟩⟩, ['-']⟩,
       ⟨.Word ['a'], ⟨⟨1, 2, 1⟩, ⟨1, 3, 2⟩⟩, ['a']⟩,
       ⟨.Eof, ⟨⟨1, 3, 2⟩, ⟨1, 3, 2⟩⟩, []⟩] := by
  rfl

/-- C1 (amended): whenever the scan is at a `-`, the number branch always
fires, emitting one `Number` token whose text is the `-` followed by the
maximal run of digits and `.` (so `-3.14` is one token, while a `-`
followed by a non-digit becomes a standalone `-` `Number` token, never a
fall-through to another rule). -/
theorem c1_dash_number (input : List Char) (s : LexState)
    (h : s.position < input.length) (hc : current_char input s = '-') :
    next_token input s =
      (.ok (some ⟨.Number
          ('-' :: (input.drop (s.position + 1)).takeWhile is_number_char),
        ⟨current_position s,
         ⟨s.line,
          s.column + 1 + ((input.drop (s.position + 1)).takeWhile is_number_char).length,
          s.position + 1 + ((input.drop (s.position + 1)).takeWhile is_number_char).length⟩⟩,
        '-' :: (input.drop (s.position + 1)).takeWhile is_number_char⟩),
       ⟨s.position + 1 + ((input.drop (s.position + 1)).takeWhile is_number_char).length,
        s.line,
        s.column + 1 + ((input.drop (s.position + 1)).takeWhile is_number_char).length⟩) := by
  have hne : is_at_end input s = false := by
    simp only [is_at_end, decide_eq_false_iff_not, Nat.not_le]
    exact h
  have n1 : ¬(('-' : Char) = ' ' ∨ ('-' : Char) = '\t' ∨ ('-' : Char) = '\r' ∨
      ('-' : Char) = '\n') := by decide
  have n2 : ¬(('-' : Char) = '"') := by decide
  have n3 : ¬(('-' : Char) = '(') := by decide
  have n4 : ¬(('-' : Char) = ')') := by decide
  have n5 : ¬(('-' : Char) = '[') := by decide
  have n6 : ¬(('-' : Char) = ']') := by decide
  have n7 : ¬(('-' : Char) = '\x7b') := by decide
  have n8 : ¬(('-' : Char) = '\x7d') := by decide
  have n9 : ¬(('-' : Char) = '~') := by decide
  have n10 : ¬(('-' : Char) = ':') := by decide
  have n11 : ¬(('-' : Char) = '<' ∧ peek_ahead input s 2 = ['<', '<']) :=
    fun hx => absurd hx.1 (by decide)
  have n12 : ¬(('-' : Char) = '>' ∧ peek_ahead input s 2 = ['>', '>']) :=
    fun hx => absurd hx.1 (by decide)
  have n13 : ¬(('-' : Char) = '#') := by decide
  have n14 : ¬(('-' : Char) = '@') := by decide
  unfold next_token
  rw [hne]
  simp only [Bool.false_eq_true, if_false, hc]
  rw [if_neg n1, if_neg n2, if_neg n3, if_neg n4, if_neg n5, if_neg n6, if_neg n7,
    if_neg n8, if_neg n9, if_neg n10, if_neg n11, if_neg n12, if_neg n13, if_neg n14,
    if_pos (Or.inr trivial : ('-' : Char).isDigit = true ∨ True)]
  exact read_number_spec_dash input s h hc

/-- C1 (amended) witness: `-3.14` is consumed greedily as one `Number`
token. -/
theorem c1_dash_number_witness :
    next_token ['-', '3', '.', '1', '4'] ⟨0, 1, 1⟩ =
      (.ok (some ⟨.Number ['-', '3', '.', '1', '4'], ⟨⟨1, 1, 0⟩, ⟨1, 6, 5⟩⟩,
        ['-', '3', '.', '1', '4']⟩), ⟨5, 1, 6⟩) :=
  (c1_dash_number ['-', '3', '.', '1', '4'] ⟨0, 1, 1⟩ (by decide) (by decide)).trans
    (by rfl)
